import Mathlib

/-!
# Verification of the `tfm` file-manager core (`cmd/browse.go`)

This file gives a shallow embedding of the input-interpretation and
file-operation state machine of the `tfm` terminal file manager and proves
properties of it.  The embedding follows `cmd/browse.go`:

* Go strings are Lean `String`s; the few byte-level Go string operations used
  by the source (lexicographic `<`, `strings.ToLower`, `strings.Contains`,
  `filepath.Ext`, truncation by one) are re-implemented structurally so that
  they compute inside the kernel.  They agree with Go on the inputs the
  program feeds them (UTF-8 byte order coincides with code-point order, and
  the ASCII cases of `ToLower`).
* Absolute file-system paths are lists of components (`/a/b` is
  `["a", "b"]`, the root is `[]`).  `filepath.Dir` is `List.dropLast`,
  `filepath.Base` is the last component and `filepath.Join` is append.
* The file system itself is a list of entries (path, directory flag, file
  content); `os.Rename`, `os.RemoveAll`, `os.MkdirTemp` and the recursive
  copy helpers are modelled as functions on it.  Operations that can fail
  return `Option`.  `time.Time` is an integer count of milliseconds.
* The Bubble Tea model `FileManager` and its `Update` function are translated
  method by method.  External collaborators (the default opener, the shell,
  and the `zoxide` lookup) are side-effect-free from the core's point of
  view; the `zoxide` lookup is modelled as a query table carried by the
  world state.
-/

/-! ## Byte-level string helpers used by the Go source -/

/-- Go compares strings byte-lexicographically; on valid UTF-8 this agrees
with code-point order, so we compare the code points. -/
def charLtB (a b : Char) : Bool := a.val.toNat < b.val.toNat

/-- Lexicographic order on the underlying character lists. -/
def charListLt : List Char → List Char → Bool
  | [], [] => false
  | [], _ :: _ => true
  | _ :: _, [] => false
  | a :: as, b :: bs =>
    if charLtB a b then true
    else if charLtB b a then false
    else charListLt as bs

/-- Go's `s1 < s2` on strings (used by the sort comparator in
`ReadDirectory`). -/
def strLt (a b : String) : Bool := charListLt a.data b.data

/-- Go's `strings.HasPrefix(name, ".")` as used to skip hidden entries. -/
def isHidden (s : String) : Bool :=
  match s.data with
  | [] => false
  | c :: _ => c = '.'

/-- `strings.ToLower`, restricted to the per-character lowering Lean
provides (identical to Go on ASCII, which is what the search compares). -/
def strToLower (s : String) : String := String.mk (s.data.map Char.toLower)

/-- Substring search over character lists (`strings.Contains`).  The empty
needle is contained in everything, as in Go. -/
def containsAux (needle : List Char) : List Char → Bool
  | [] => needle.isEmpty
  | c :: t => needle.isPrefixOf (c :: t) || containsAux needle t

/-- Go's `strings.Contains`. -/
def strContains (s sub : String) : Bool := containsAux sub.data s.data

/-- Drop the final character of a string: the Go source truncates text
buffers with `s[:len(s)-1]`, a byte-level operation that coincides with
dropping the final character for the ASCII input the key handler appends. -/
def strDropLast (s : String) : String := String.mk s.data.dropLast

/-- Split a character list at its last `'.'`: returns `(stem, extension)`
where the extension starts with the dot, or `none` when there is no dot.
This is the final-component part of Go's `filepath.Ext` /
`strings.TrimSuffix` pair (Go's scan stops at the path separator, so only
the last component matters). -/
def extSplitAux : List Char → Option (List Char × List Char)
  | [] => none
  | c :: t =>
    match extSplitAux t with
    | some (st, ex) => some (c :: st, ex)
    | none => if c = '.' then some ([], c :: t) else none

/-- `filepath.Ext` of a file name (empty string when there is no dot). -/
def goExt (name : String) : String :=
  match extSplitAux name.data with
  | some (_, ex) => String.mk ex
  | none => ""

/-- `strings.TrimSuffix(name, filepath.Ext(name))`: the name without its
extension. -/
def goStem (name : String) : String :=
  match extSplitAux name.data with
  | some (st, _) => String.mk st
  | none => name

/-! ## Paths and the file-system model -/

/-- An absolute path, as its list of components; `[]` is the root. -/
abbrev FPath := List String

/-- `filepath.Dir`: the parent of a path; the root is its own parent, as
same. -/
def parentPath (p : FPath) : FPath := p.dropLast

/-- `filepath.Base` (total; the root maps to `"/"` as in Go, a value the
program only produces where it is unused). -/
def basePath (p : FPath) : String := p.getLast?.getD "/"

/-- One file-system object: its absolute path, whether it is a directory,
and its content (directories carry `""`). -/
structure FsEntry where
  path : FPath
  isDir : Bool
  content : String
deriving DecidableEq, Repr

/-- The file system: the list of all its objects. -/
abbrev Fs := List FsEntry

/-- Does a path exist (`os.Stat` succeeding)? -/
def pathExists (fs : Fs) (p : FPath) : Bool :=
  fs.any (fun e => decide (e.path = p))

/-- Does a path exist and name a directory? -/
def dirExists (fs : Fs) (p : FPath) : Bool :=
  fs.any (fun e => decide (e.path = p) && e.isDir)

/-- `isSub pre p`: `p` is `pre` itself or lies inside the tree rooted at
`pre`. -/
def isSub (pre p : FPath) : Bool := pre.isPrefixOf p

/-- Replace the prefix `src` of a path by `dst` (callers ensure `src` is a
prefix). -/
def replacePrefix (src dst p : FPath) : FPath := dst ++ p.drop src.length

/-- `os.Rename src dst`: moves the object (and, for a directory, its whole
subtree) at `src` to `dst`.  It fails when `src` does not exist, when the
parent directory of `dst` is missing, or when the two paths are nested in
one another (`EINVAL`/`EEXIST` in Go; the program never renames a path to
itself).  An existing object at `dst` is overwritten. -/
def rename (src dst : FPath) (fs : Fs) : Option Fs :=
  if pathExists fs src = true
      ∧ (parentPath dst = ([] : FPath) ∨ pathExists fs (parentPath dst) = true)
      ∧ isSub src dst = false ∧ isSub dst src = false then
    some (((fs.filter (fun e => !(isSub dst e.path))).map
      (fun e => if isSub src e.path then { e with path := replacePrefix src dst e.path } else e)))
  else none

/-- `os.RemoveAll`: delete the subtree rooted at `p` (total: the source
ignores its error). -/
def removeAll (p : FPath) (fs : Fs) : Fs :=
  fs.filter (fun e => !(isSub p e.path))

/-- Net effect of the `copyFileOrDir`/`copyFile`/`copyDir` helpers from
`browse.go` when every step succeeds: the subtree at `src` is duplicated at
`dst`, merging over whatever already exists there (`os.MkdirAll` tolerates
existing directories and `os.Create` truncates existing files).  It fails
when `src` does not exist or the parent of `dst` is missing. -/
def copyFileOrDir (src dst : FPath) (fs : Fs) : Option Fs :=
  if pathExists fs src = true
      ∧ (parentPath dst = ([] : FPath) ∨ pathExists fs (parentPath dst) = true) then
    let copied := (fs.filter (fun e => isSub src e.path)).map
      (fun e => { e with path := replacePrefix src dst e.path })
    some ((fs.filter (fun e => !(copied.any (fun c => decide (c.path = e.path))))) ++ copied)
  else none

/-! ## Sorting and `ReadDirectory` -/

/-- One listing row, `FileEntry` from `browse.go` (the `Selected` field is
declared there but never used). -/
structure FileEntry where
  name : String
  path : FPath
  isDir : Bool
  selected : Bool := false
deriving DecidableEq, Repr

/-- The `sort.Slice` comparator of `ReadDirectory`: directories before
files, then lexicographically by name. -/
def entLess (a b : FileEntry) : Bool :=
  if a.isDir ≠ b.isDir then a.isDir else strLt a.name b.name

/-- Insert into a list sorted by `less`. -/
def insertSorted (less : α → α → Bool) (x : α) : List α → List α
  | [] => [x]
  | y :: ys => if less x y then x :: y :: ys else y :: insertSorted less x ys

/-- Insertion sort; produces the same output as Go's `sort.Slice` whenever
the keys are distinct (which they are for a real directory listing). -/
def sortByLess (less : α → α → Bool) : List α → List α
  | [] => []
  | x :: xs => insertSorted less x (sortByLess less xs)

/-- The name under which `p` is a direct child of `cur`, if it is one. -/
def childName (cur : FPath) (p : FPath) : Option String :=
  match p.getLast? with
  | none => none
  | some n => if p.dropLast = cur then some n else none

/-- `ReadDirectory` from `browse.go`: the direct children of `path`, hidden
(dot-prefixed) names skipped, directories first and then sorted by name. -/
def readDirectory (fs : Fs) (path : FPath) : List FileEntry :=
  sortByLess entLess (fs.filterMap (fun e =>
    match childName path e.path with
    | some n => if isHidden n then none else some { name := n, path := path ++ [n], isDir := e.isDir }
    | none => none))

/-! ## The application state -/

/-- `UndoAction` from `browse.go`.  `NewPath`'s Go zero value `""` is
modelled as `none`; the `"copy"` variant stores `OldPath = ""`, modelled as
the (never dereferenced) root path. -/
structure UndoAction where
  type : String
  oldPath : FPath
  newPath : Option FPath
  entry : FileEntry
  oldName : String
deriving DecidableEq, Repr

/-- The mutable world outside the `FileManager` struct: the file system, a
counter making `os.MkdirTemp` names fresh, and the `zoxide` collaborator
modelled as a query table. -/
structure World where
  fs : Fs
  nextTmp : Nat
  zoxideDb : List (String × FPath)
deriving DecidableEq, Repr

/-- `os.MkdirTemp("", "tfm_trash_")`: the name of the temporary directory
allocated for counter value `k`. -/
def tmpName (k : Nat) : String := "tfm_trash_" ++ Nat.repr k

/-- `os.MkdirTemp("", "tfm_trash_")`: creates a fresh directory under
`/tmp`; fails when the chosen path already exists. -/
def mkdirTemp (w : World) : Option (FPath × World) :=
  let p : FPath := ["tmp", tmpName w.nextTmp]
  if pathExists w.fs p = true then none
  else some (p, { w with fs := w.fs ++ [{ path := p, isDir := true, content := "" }], nextTmp := w.nextTmp + 1 })

/-- The `FileManager` model struct of `browse.go`.  `Width`/`Height` only
feed the presentation layer and are omitted; `CurrentPath` is a component
list; the unset trash directory (Go `""`) is the empty list; times are in
milliseconds. -/
structure FileManager where
  currentPath : FPath
  entries : List FileEntry
  cursor : Int
  clipboard : Option FileEntry
  clipboardOp : String
  searchMode : Bool
  searchQuery : String
  renameMode : Bool
  renameText : String
  zoxideMode : Bool
  zoxideQuery : String
  lastCommand : String
  commandTime : Int
  showWhichKey : Bool
  undoStack : List UndoAction
  trashDir : FPath
deriving DecidableEq, Repr

/-- Indexing `m.Entries[i]` with a Go `int`.  A negative index panics in Go
(`none` here); the reachable guards below only index with the checks the
source makes. -/
def nthInt (l : List α) (i : Int) : Option α :=
  if i < 0 then none else l[i.toNat]?

/-! ## File operations (`FileManager` methods from `browse.go`) -/

/-- `cutFile`: marks the entry under the cursor as cut, pushes a
`"cut"`-tagged tracking action, removes the entry from the in-memory list
and clamps the cursor.  No file-system effect. -/
def FileManager.cutFile (m : FileManager) : FileManager :=
  if 0 < m.entries.length ∧ m.cursor < (m.entries.length : Int) then
    match nthInt m.entries m.cursor with
    | none => m
    | some entry =>
      let act : UndoAction :=
        { type := "cut", oldPath := entry.path, newPath := none, entry := entry, oldName := "" }
      let m1 := { m with clipboard := some entry, clipboardOp := "cut",
                         undoStack := m.undoStack ++ [act] }
      let es := m1.entries.take m1.cursor.toNat ++ m1.entries.drop (m1.cursor.toNat + 1)
      let m2 := { m1 with entries := es }
      if m2.cursor ≥ (es.length : Int) ∧ 0 < es.length then { m2 with cursor := (es.length : Int) - 1 }
      else if es.length = 0 then { m2 with cursor := 0 }
      else m2
  else m

/-- `copyFile` (the `yy` method, distinct from the file-copy helper): marks
the entry under the cursor as copied. -/
def FileManager.copyFile (m : FileManager) : FileManager :=
  if 0 < m.entries.length ∧ m.cursor < (m.entries.length : Int) then
    match nthInt m.entries m.cursor with
    | none => m
    | some entry => { m with clipboard := some entry, clipboardOp := "copy" }
  else m

/-- The candidate trash file name tried at counter value `k` by
`deleteFile`'s collision loop: the original name for `k = 0`, then the name
with `_k` spliced in before the extension. -/
def trashCandidate (name : String) (k : Nat) : String :=
  if k = 0 then name else goStem name ++ "_" ++ Nat.repr k ++ goExt name

/-- The collision-avoidance loop of `deleteFile`: starting at counter `k`,
return the first candidate name that does not yet exist inside `td`.  Go
loops unboundedly; the fuel only bounds the search depth, and callers pass
`fs.length + 1` which covers more candidates than the file system has
entries. -/
def freshTrashName (fs : Fs) (td : FPath) (name : String) : Nat → Nat → Option String
  | 0, _ => none
  | fuel + 1, k =>
    let cand := trashCandidate name k
    if pathExists fs (td ++ [cand]) = true then freshTrashName fs td name fuel (k + 1)
    else some cand

/-- `deleteFile`: lazily creates the trash directory, picks a collision-free
destination inside it, moves the entry there, and only on success pushes a
`"delete"` undo action and reloads the listing.  Both failure branches
return silently. -/
def FileManager.deleteFile (m : FileManager) (w : World) : FileManager × World :=
  if 0 < m.entries.length ∧ m.cursor < (m.entries.length : Int) then
    match nthInt m.entries m.cursor with
    | none => (m, w)
    | some entry =>
      match (if m.trashDir = ([] : FPath) then mkdirTemp w else some (m.trashDir, w)) with
      | none => (m, w)
      | some (td, w1) =>
        let m1 := { m with trashDir := td }
        match freshTrashName w1.fs td entry.name (w1.fs.length + 1) 0 with
        | none => (m1, w1)
        | some tn =>
          let trashPath := td ++ [tn]
          match rename entry.path trashPath w1.fs with
          | none => (m1, w1)
          | some fs2 =>
            let act : UndoAction :=
              { type := "delete", oldPath := entry.path, newPath := some trashPath,
                entry := entry, oldName := "" }
            let m2 := { m1 with undoStack := m1.undoStack ++ [act] }
            let es := readDirectory fs2 m2.currentPath
            let m3 := { m2 with entries := es }
            let m4 :=
              if m3.cursor ≥ (es.length : Int) ∧ 0 < es.length then { m3 with cursor := (es.length : Int) - 1 }
              else if es.length = 0 then { m3 with cursor := 0 }
              else m3
            (m4, { w1 with fs := fs2 })
  else (m, w)

/-- `pasteFile`: paste the clipboard entry into the current directory.  Cut
into the same directory only undoes the visual cut; cut into another
directory moves the file and pushes a `"move"` action; copy duplicates the
file (renaming with a `_copy` suffix on collision) and pushes a `"copy"`
action; the clipboard is cleared after a cut but kept after a copy. -/
def FileManager.pasteFile (m : FileManager) (w : World) : FileManager × World :=
  match m.clipboard with
  | none => (m, w)
  | some clip =>
    let destPath := m.currentPath ++ [clip.name]
    if m.clipboardOp = "cut" then
      let clipDir := parentPath clip.path
      if clipDir = m.currentPath then
        ({ m with clipboard := none, clipboardOp := "",
                  entries := readDirectory w.fs m.currentPath }, w)
      else if pathExists w.fs clip.path = true then
        match rename clip.path destPath w.fs with
        | some fs2 =>
          let act : UndoAction :=
            { type := "move", oldPath := clip.path, newPath := some destPath,
              entry := clip, oldName := "" }
          let m1 := { m with undoStack := m.undoStack ++ [act], clipboard := none,
                             clipboardOp := "", entries := readDirectory fs2 m.currentPath }
          (m1, { w with fs := fs2 })
        | none => ({ m with clipboard := none, clipboardOp := "" }, w)
      else ({ m with clipboard := none, clipboardOp := "" }, w)
    else if m.clipboardOp = "copy" then
      let destPath2 := if pathExists w.fs destPath = true
        then m.currentPath ++ [goStem clip.name ++ "_copy" ++ goExt clip.name]
        else destPath
      match copyFileOrDir clip.path destPath2 w.fs with
      | some fs2 =>
        let act : UndoAction :=
          { type := "copy", oldPath := [], newPath := some destPath2,
            entry := clip, oldName := "" }
        let m1 := { m with undoStack := m.undoStack ++ [act],
                           entries := readDirectory fs2 m.currentPath }
        (m1, { w with fs := fs2 })
      | none => (m, w)
    else
      ({ m with entries := readDirectory w.fs m.currentPath }, w)

/-- `undoLastAction`: pop the most recent undo action and reverse it.  A
failed reversing move pushes the action back unchanged; a `"copy"` reversal
is best-effort removal; `"cut"` only clears the clipboard; every successful
branch reloads the listing, and an unknown tag (impossible for pushed
actions) just reloads. -/
def FileManager.undoLastAction (m : FileManager) (w : World) : FileManager × World :=
  match m.undoStack.getLast? with
  | none => (m, w)
  | some lastAction =>
    let m0 := { m with undoStack := m.undoStack.dropLast }
    if lastAction.type = "delete" then
      match lastAction.newPath with
      | some np =>
        match rename np lastAction.oldPath w.fs with
        | none => ({ m0 with undoStack := m0.undoStack ++ [lastAction] }, w)
        | some fs2 => ({ m0 with entries := readDirectory fs2 m0.currentPath }, { w with fs := fs2 })
      | none => ({ m0 with entries := readDirectory w.fs m0.currentPath }, w)
    else if lastAction.type = "cut" then
      ({ m0 with clipboard := none, clipboardOp := "",
                 entries := readDirectory w.fs m0.currentPath }, w)
    else if lastAction.type = "copy" then
      match lastAction.newPath with
      | some np =>
        let fs2 := removeAll np w.fs
        ({ m0 with entries := readDirectory fs2 m0.currentPath }, { w with fs := fs2 })
      | none => ({ m0 with entries := readDirectory w.fs m0.currentPath }, w)
    else if lastAction.type = "move" ∨ lastAction.type = "rename" then
      match lastAction.newPath with
      | some np =>
        match rename np lastAction.oldPath w.fs with
        | none => ({ m0 with undoStack := m0.undoStack ++ [lastAction] }, w)
        | some fs2 => ({ m0 with entries := readDirectory fs2 m0.currentPath }, { w with fs := fs2 })
      | none => ({ m0 with undoStack := m0.undoStack ++ [lastAction] }, w)
    else
      ({ m0 with entries := readDirectory w.fs m0.currentPath }, w)

/-- `searchFiles`: case-insensitive substring search from the top of the
listing; the first match receives the cursor, no match and the empty query
change nothing. -/
def FileManager.searchFiles (m : FileManager) (query : String) : FileManager :=
  if query = "" then m
  else
    let q := strToLower query
    match m.entries.findIdx? (fun e => strContains (strToLower e.name) q) with
    | some i => { m with cursor := Int.ofNat i }
    | none => m

/-- `renameFile`: renames the entry under the cursor to `newName` unless the
name is empty, unchanged, or the cursor invalid; on success pushes a
`"rename"` action, reloads and repositions the cursor on the renamed
entry. -/
def FileManager.renameFile (m : FileManager) (w : World) (newName : String) : FileManager × World :=
  if newName = "" ∨ m.entries.length = 0 ∨ (m.entries.length : Int) ≤ m.cursor then (m, w)
  else
    match nthInt m.entries m.cursor with
    | none => (m, w)
    | some entry =>
      let newPath := m.currentPath ++ [newName]
      if newName ≠ entry.name then
        match rename entry.path newPath w.fs with
        | some fs2 =>
          let act : UndoAction :=
            { type := "rename", oldPath := entry.path, newPath := some newPath,
              entry := entry, oldName := entry.name }
          let m1 := { m with undoStack := m.undoStack ++ [act],
                             entries := readDirectory fs2 m.currentPath }
          let m2 := match m1.entries.findIdx? (fun e => decide (e.name = newName)) with
                    | some i => { m1 with cursor := Int.ofNat i }
                    | none => m1
          (m2, { w with fs := fs2 })
        | none => (m, w)
      else (m, w)

/-- The `zoxide` collaborator: the query table lookup standing in for
invoking the external `zoxide query` subprocess. -/
def World.lookupZoxide (w : World) (q : String) : Option FPath :=
  (w.zoxideDb.find? (fun x => decide (x.fst = q))).map (fun x => x.snd)

/-- `navigateWithZoxide`: ask the external lookup for a directory and jump
to it; empty queries, lookup failures and non-directory results are silent
no-ops. -/
def FileManager.navigateWithZoxide (m : FileManager) (w : World) (query : String) : FileManager :=
  if query = "" then m
  else
    match w.lookupZoxide query with
    | none => m
    | some target =>
      if dirExists w.fs target = true then
        { m with currentPath := target, entries := readDirectory w.fs target, cursor := 0 }
      else m

/-- `tryEnterDirectory`: descend into the directory under the cursor, or
hand a file to the external default opener (whose failure is swallowed, so
the state is unchanged either way for files). -/
def FileManager.tryEnterDirectory (m : FileManager) (w : World) : FileManager :=
  if m.cursor < (m.entries.length : Int) then
    match nthInt m.entries m.cursor with
    | none => m
    | some entry =>
      if entry.isDir then
        { m with currentPath := entry.path, entries := readDirectory w.fs entry.path, cursor := 0 }
      else m
  else m

/-- `handleDoubleCommand`: the chord recognizer.  Resolves exactly when the
incoming key equals the pending one and arrives strictly within 500 ms;
resolution clears the pending key, non-resolution records the incoming key
and its timestamp. -/
def FileManager.handleDoubleCommand (m : FileManager) (cmd : String) (now : Int) : Bool × FileManager :=
  if cmd = m.lastCommand ∧ now - m.commandTime < 500 then
    (true, { m with lastCommand := "" })
  else
    (false, { m with lastCommand := cmd, commandTime := now })

/-! ## Key events and the `Update` dispatcher -/

/-- The shape of a `tea.KeyMsg`: special keys carry their own type (the
non-Normal modes switch on it), every key also renders as a string via
`msg.String()` (what Normal mode switches on; `"enter"`, `"esc"` and
`"backspace"` for the special keys). -/
inductive KeyType where
  | enter
  | esc
  | backspace
  | char
deriving DecidableEq, Repr

/-- A key event: its type and its `msg.String()` rendering. -/
structure KeyMsg where
  type : KeyType
  str : String
deriving DecidableEq, Repr

/-- The `tea.KeyMsg` arm of `FileManager.Update`, with the wall clock passed
in (`now`, milliseconds; the source reads `time.Now()` inside
`handleDoubleCommand` and `time.Since` in the `"D"` case).  `q`/`ctrl+c`
(quit) and `S` (foreground shell) only emit commands, leaving the model
state unchanged. -/
def FileManager.update (m : FileManager) (msg : KeyMsg) (now : Int) (w : World) : FileManager × World :=
  if m.searchMode then
    match msg.type with
    | .enter =>
      let m1 := { m with searchMode := false }
      let m2 := m1.searchFiles m1.searchQuery
      ({ m2 with searchQuery := "" }, w)
    | .esc => ({ m with searchMode := false, searchQuery := "" }, w)
    | .backspace =>
      (if m.searchQuery.length > 0 then { m with searchQuery := strDropLast m.searchQuery } else m, w)
    | .char => ({ m with searchQuery := m.searchQuery ++ msg.str }, w)
  else if m.renameMode then
    match msg.type with
    | .enter =>
      let m1 := { m with renameMode := false }
      let p := m1.renameFile w m1.renameText
      ({ p.1 with renameText := "" }, p.2)
    | .esc => ({ m with renameMode := false, renameText := "" }, w)
    | .backspace =>
      (if m.renameText.length > 0 then { m with renameText := strDropLast m.renameText } else m, w)
    | .char => ({ m with renameText := m.renameText ++ msg.str }, w)
  else if m.zoxideMode then
    match msg.type with
    | .enter =>
      let m1 := { m with zoxideMode := false }
      let m2 := m1.navigateWithZoxide w m1.zoxideQuery
      ({ m2 with zoxideQuery := "" }, w)
    | .esc => ({ m with zoxideMode := false, zoxideQuery := "" }, w)
    | .backspace =>
      (if m.zoxideQuery.length > 0 then { m with zoxideQuery := strDropLast m.zoxideQuery } else m, w)
    | .char => ({ m with zoxideQuery := m.zoxideQuery ++ msg.str }, w)
  else
    if msg.str = "ctrl+c" ∨ msg.str = "q" then (m, w)
    else if msg.str = "up" ∨ msg.str = "k" then
      (if m.cursor > 0 then { m with cursor := m.cursor - 1 } else m, w)
    else if msg.str = "down" ∨ msg.str = "j" then
      (if m.cursor < (m.entries.length : Int) - 1 then { m with cursor := m.cursor + 1 } else m, w)
    else if msg.str = "l" ∨ msg.str = "enter" ∨ msg.str = "right" then
      (m.tryEnterDirectory w, w)
    else if msg.str = "h" ∨ msg.str = "left" then
      let parent := parentPath m.currentPath
      if parent ≠ m.currentPath then
        let currentDir := basePath m.currentPath
        let m1 := { m with currentPath := parent, entries := readDirectory w.fs parent }
        match m1.entries.findIdx? (fun e => decide (e.name = currentDir)) with
        | some i => ({ m1 with cursor := Int.ofNat i }, w)
        | none => (m1, w)
      else (m, w)
    else if msg.str = "d" then
      let p := m.handleDoubleCommand "d" now
      (if p.1 then p.2.cutFile else p.2, w)
    else if msg.str = "D" then
      if m.lastCommand = "d" ∧ now - m.commandTime < 500 then
        let p := m.deleteFile w
        ({ p.1 with lastCommand := "" }, p.2)
      else
        let p := m.handleDoubleCommand "D" now
        if p.1 then p.2.deleteFile w else (p.2, w)
    else if msg.str = "y" then
      let p := m.handleDoubleCommand "y" now
      (if p.1 then p.2.copyFile else p.2, w)
    else if msg.str = "p" then
      let p := m.handleDoubleCommand "p" now
      if p.1 then p.2.pasteFile w else (p.2, w)
    else if msg.str = "/" then
      ({ m with searchMode := true, searchQuery := "" }, w)
    else if msg.str = "a" then
      if 0 < m.entries.length ∧ m.cursor < (m.entries.length : Int) then
        match nthInt m.entries m.cursor with
        | some e => ({ m with renameMode := true, renameText := e.name }, w)
        | none => (m, w)
      else (m, w)
    else if msg.str = "z" then
      ({ m with zoxideMode := true, zoxideQuery := "" }, w)
    else if msg.str = "g" then
      let p := m.handleDoubleCommand "g" now
      (if p.1 then { p.2 with cursor := 0 } else p.2, w)
    else if msg.str = "G" then
      ({ m with cursor := (m.entries.length : Int) - 1 }, w)
    else if msg.str = "u" then m.undoLastAction w
    else if msg.str = "S" then (m, w)
    else if msg.str = "?" then ({ m with showWhichKey := !m.showWhichKey }, w)
    else (m, w)

/-! ## Basic facts about the file-system model -/

theorem isSub_iff {a b : FPath} : isSub a b = true ↔ a <+: b := by
  simp [isSub, List.isPrefixOf_iff_prefix]

theorem isSub_eq_false_iff {a b : FPath} : isSub a b = false ↔ ¬ a <+: b := by
  rw [← isSub_iff]
  cases h : isSub a b <;> simp

theorem pathExists_iff {fs : Fs} {p : FPath} :
    pathExists fs p = true ↔ ∃ e ∈ fs, e.path = p := by
  simp [pathExists, List.any_eq_true]

theorem pathExists_eq_false_iff {fs : Fs} {p : FPath} :
    pathExists fs p = false ↔ ∀ e ∈ fs, e.path ≠ p := by
  have h1 := @pathExists_iff fs p
  cases h : pathExists fs p <;> simp_all

theorem nthInt_mem {l : List α} {i : Int} {a : α} (h : nthInt l i = some a) : a ∈ l := by
  unfold nthInt at h
  split at h
  · exact absurd h (by simp)
  · exact List.getElem?_mem h

theorem nthInt_eq_some_of_lt {l : List α} {i : Int} (h0 : 0 ≤ i) (h : i < (l.length : Int)) :
    ∃ a, nthInt l i = some a := by
  unfold nthInt
  rw [if_neg (by omega)]
  have hlt : i.toNat < l.length := by omega
  exact ⟨l[i.toNat], List.getElem?_eq_some.2 ⟨hlt, rfl⟩⟩

/-! ## Example states used by witnesses and counterexamples -/

/-- A small well-formed file system: `/home` with two files and a
subdirectory. -/
def exFs : Fs :=
  [{ path := ["home"], isDir := true, content := "" },
   { path := ["home", "a.txt"], isDir := false, content := "A" },
   { path := ["home", "b.txt"], isDir := false, content := "B" },
   { path := ["home", "sub"], isDir := true, content := "" },
   { path := ["home", "sub", "c.txt"], isDir := false, content := "C" }]

/-- The state right after starting `tfm browse /home` on `exFs`. -/
def exM : FileManager :=
  { currentPath := ["home"], entries := readDirectory exFs ["home"], cursor := 0,
    clipboard := none, clipboardOp := "", searchMode := false, searchQuery := "",
    renameMode := false, renameText := "", zoxideMode := false, zoxideQuery := "",
    lastCommand := "", commandTime := 0, showWhichKey := false, undoStack := [],
    trashDir := [] }

/-- The world for `exFs`, with no `zoxide` entries. -/
def exW : World := { fs := exFs, nextTmp := 0, zoxideDb := [] }

/-! ## C4: chord resolution -/

/-- C4: a chord-initiating key resolves (the recognizer reports `true`, on
which the dispatcher fires the two-key command) exactly when it equals the
pending key and arrives strictly within 500 ms of the pending timestamp; on
resolution the pending key is cleared, so three rapid presses of the same
key resolve exactly once — the middle press fires and the third starts a
fresh chord. -/
theorem chord_resolution (m : FileManager) (k : String) (now : Int) :
    ((m.handleDoubleCommand k now).1 = true ↔ (k = m.lastCommand ∧ now - m.commandTime < 500))
    ∧ ((m.handleDoubleCommand k now).1 = true →
        (m.handleDoubleCommand k now).2.lastCommand = "")
    ∧ (∀ t1 t2 t3 : Int, k ≠ "" → m.lastCommand ≠ k → t2 - t1 < 500 → t3 - t2 < 500 →
        (m.handleDoubleCommand k t1).1 = false
        ∧ ((m.handleDoubleCommand k t1).2.handleDoubleCommand k t2).1 = true
        ∧ (((m.handleDoubleCommand k t1).2.handleDoubleCommand k t2).2.handleDoubleCommand
            k t3).1 = false) := by
  unfold FileManager.handleDoubleCommand
  refine ⟨?_, ?_, ?_⟩
  · split_ifs with h <;> simp_all
  · split_ifs with h <;> simp_all
  · intro t1 t2 t3 hk hlast h12 h23
    rw [if_neg (fun hc => hlast hc.1.symm)]
    simp only
    rw [if_pos ⟨trivial, by omega⟩]
    simp only
    rw [if_neg (fun hc => hk hc.1)]
    simp

/-- Witness for C4 at a concrete state and key. -/
theorem chord_resolution_witness :
    (exM.handleDoubleCommand "d" 0).1 = false
    ∧ ((exM.handleDoubleCommand "d" 0).2.handleDoubleCommand "d" 100).1 = true
    ∧ (((exM.handleDoubleCommand "d" 0).2.handleDoubleCommand "d" 100).2.handleDoubleCommand
        "d" 200).1 = false :=
  (chord_resolution exM "d" 0).2.2 0 100 200 (by decide) (by decide) (by decide) (by decide)

/-! ## C5: the cross-chord delete shortcut -/

/-- C5: in Normal mode, the delete confirmation key `"D"` arriving strictly
within 500 ms of the cut chord's first key (pending key `"d"`) triggers the
delete operation even though it differs from the pending key, and the
pending key is cleared. -/
theorem cross_chord_delete (m : FileManager) (now : Int) (w : World)
    (hs : m.searchMode = false) (hr : m.renameMode = false) (hz : m.zoxideMode = false)
    (hlast : m.lastCommand = "d") (ht : now - m.commandTime < 500) :
    m.update { type := KeyType.char, str := "D" } now w =
      ({ (m.deleteFile w).1 with lastCommand := "" }, (m.deleteFile w).2) := by
  unfold FileManager.update
  simp [hs, hr, hz, hlast, ht]

/-- Witness for C5: with the cut chord pending on `exM`, `"D"` at 100 ms
performs the delete. -/
theorem cross_chord_delete_witness :
    ({ exM with lastCommand := "d", cursor := 1 } : FileManager).update
        { type := KeyType.char, str := "D" } 100 exW =
      ({ (({ exM with lastCommand := "d", cursor := 1 } : FileManager).deleteFile exW).1 with
          lastCommand := "" },
        (({ exM with lastCommand := "d", cursor := 1 } : FileManager).deleteFile exW).2) :=
  cross_chord_delete { exM with lastCommand := "d", cursor := 1 } 100 exW
    (by decide) (by decide) (by decide) (by decide) (by decide)

/-! ## C6: chord state across unrelated keys -/

theorem tryEnterDirectory_chord_state (m : FileManager) (w : World) :
    (m.tryEnterDirectory w).lastCommand = m.lastCommand
    ∧ (m.tryEnterDirectory w).commandTime = m.commandTime := by
  unfold FileManager.tryEnterDirectory
  split_ifs <;> try exact ⟨rfl, rfl⟩
  rcases h : nthInt m.entries m.cursor with _ | e
  · exact ⟨rfl, rfl⟩
  · dsimp only
    split_ifs <;> exact ⟨rfl, rfl⟩

theorem undoLastAction_chord_state (m : FileManager) (w : World) :
    (m.undoLastAction w).1.lastCommand = m.lastCommand
    ∧ (m.undoLastAction w).1.commandTime = m.commandTime := by
  unfold FileManager.undoLastAction
  rcases h : m.undoStack.getLast? with _ | a
  · exact ⟨rfl, rfl⟩
  · dsimp only
    split_ifs <;> first
      | exact ⟨rfl, rfl⟩
      | (rcases hnp : a.newPath with _ | np
         · exact ⟨rfl, rfl⟩
         · dsimp only
           first
             | (rcases hr : rename np a.oldPath w.fs with _ | fs2 <;> exact ⟨rfl, rfl⟩)
             | exact ⟨rfl, rfl⟩)

theorem cutFile_pushes (m : FileManager) (h0 : 0 ≤ m.cursor)
    (h1 : m.cursor < (m.entries.length : Int)) (h2 : 0 < m.entries.length) :
    ∃ entry, nthInt m.entries m.cursor = some entry
      ∧ m.cutFile.undoStack = m.undoStack ++
          [{ type := "cut", oldPath := entry.path, newPath := none, entry := entry,
             oldName := "" }]
      ∧ m.cutFile.clipboardOp = "cut" ∧ m.cutFile.clipboard = some entry := by
  obtain ⟨entry, he⟩ := nthInt_eq_some_of_lt h0 h1
  refine ⟨entry, he, ?_⟩
  unfold FileManager.cutFile
  rw [if_pos ⟨h2, h1⟩, he]
  dsimp only
  split_ifs <;> exact ⟨rfl, rfl, rfl⟩

theorem update_d_noresolve (m : FileManager) (now : Int) (w : World)
    (hs : m.searchMode = false) (hr : m.renameMode = false) (hz : m.zoxideMode = false)
    (hl : m.lastCommand ≠ "d") :
    m.update { type := KeyType.char, str := "d" } now w
      = ({ m with lastCommand := "d", commandTime := now }, w) := by
  have hd : m.handleDoubleCommand "d" now
      = (false, { m with lastCommand := "d", commandTime := now }) := by
    unfold FileManager.handleDoubleCommand
    rw [if_neg (fun hc => hl hc.1.symm)]
  unfold FileManager.update
  simp [hs, hr, hz, hd]

theorem update_d_resolve (m : FileManager) (now : Int) (w : World)
    (hs : m.searchMode = false) (hr : m.renameMode = false) (hz : m.zoxideMode = false)
    (hl : m.lastCommand = "d") (ht : now - m.commandTime < 500) :
    m.update { type := KeyType.char, str := "d" } now w
      = (FileManager.cutFile { m with lastCommand := "" }, w) := by
  have hd : m.handleDoubleCommand "d" now = (true, { m with lastCommand := "" }) := by
    unfold FileManager.handleDoubleCommand
    rw [if_pos ⟨hl.symm, ht⟩]
  unfold FileManager.update
  simp [hs, hr, hz, hd]

theorem update_movement (m : FileManager) (now : Int) (w : World) (s : String)
    (hs : m.searchMode = false) (hr : m.renameMode = false) (hz : m.zoxideMode = false)
    (hkey : s = "up" ∨ s = "k" ∨ s = "down" ∨ s = "j") :
    (s = "up" ∨ s = "k" →
      m.update { type := KeyType.char, str := s } now w
        = ((if m.cursor > 0 then { m with cursor := m.cursor - 1 } else m), w))
    ∧ (s = "down" ∨ s = "j" →
      m.update { type := KeyType.char, str := s } now w
        = ((if m.cursor < (m.entries.length : Int) - 1 then { m with cursor := m.cursor + 1 } else m), w)) := by
  constructor
  · intro hup
    unfold FileManager.update
    rcases hup with h | h <;> subst h <;> simp [hs, hr, hz]
  · intro hdown
    unfold FileManager.update
    rcases hdown with h | h <;> subst h <;> simp [hs, hr, hz]

set_option maxHeartbeats 1600000 in
/-- C6 (amended): the pending chord state is written only by the
chord-recognizer keys (`d`, `D`, `y`, `p`, `g`); every other key leaves it
untouched, so chord-key, unrelated movement key, chord-key — all within
500 ms — resolves the chord and executes the cut.  (The original claim said
an unrelated key clears the pending state and prevents resolution.) -/
theorem chord_state_unrelated_keys :
    (∀ (m : FileManager) (msg : KeyMsg) (now : Int) (w : World),
      m.searchMode = false → m.renameMode = false → m.zoxideMode = false →
      msg.str ≠ "d" → msg.str ≠ "D" → msg.str ≠ "y" → msg.str ≠ "p" → msg.str ≠ "g" →
      (m.update msg now w).1.lastCommand = m.lastCommand
      ∧ (m.update msg now w).1.commandTime = m.commandTime)
    ∧ (∀ (m : FileManager) (w : World) (t1 t2 t3 : Int) (s : String),
      m.searchMode = false → m.renameMode = false → m.zoxideMode = false →
      m.lastCommand ≠ "d" → 0 < m.entries.length → 0 ≤ m.cursor →
      m.cursor < (m.entries.length : Int) → (s = "up" ∨ s = "k") → t3 - t1 < 500 →
      ∃ a : UndoAction,
        ((((m.update { type := KeyType.char, str := "d" } t1 w).1.update
            { type := KeyType.char, str := s } t2
            (m.update { type := KeyType.char, str := "d" } t1 w).2).1.update
            { type := KeyType.char, str := "d" } t3
            ((m.update { type := KeyType.char, str := "d" } t1 w).1.update
              { type := KeyType.char, str := s } t2
              (m.update { type := KeyType.char, str := "d" } t1 w).2).2).1.undoStack
          = m.undoStack ++ [a])
        ∧ a.type = "cut"
        ∧ (((m.update { type := KeyType.char, str := "d" } t1 w).1.update
            { type := KeyType.char, str := s } t2
            (m.update { type := KeyType.char, str := "d" } t1 w).2).1.update
            { type := KeyType.char, str := "d" } t3
            ((m.update { type := KeyType.char, str := "d" } t1 w).1.update
              { type := KeyType.char, str := s } t2
              (m.update { type := KeyType.char, str := "d" } t1 w).2).2).1.clipboardOp
          = "cut") := by
  constructor
  · intro m msg now w hs hr hz h1 h2 h3 h4 h5
    unfold FileManager.update
    simp only [hs, hr, hz, Bool.false_eq_true, if_false]
    by_cases c1 : msg.str = "ctrl+c" ∨ msg.str = "q"
    · rw [if_pos c1]; exact ⟨rfl, rfl⟩
    rw [if_neg c1]
    by_cases c2 : msg.str = "up" ∨ msg.str = "k"
    · rw [if_pos c2]; constructor <;> split <;> rfl
    rw [if_neg c2]
    by_cases c3 : msg.str = "down" ∨ msg.str = "j"
    · rw [if_pos c3]; constructor <;> split <;> rfl
    rw [if_neg c3]
    by_cases c4 : msg.str = "l" ∨ msg.str = "enter" ∨ msg.str = "right"
    · rw [if_pos c4]; exact tryEnterDirectory_chord_state m w
    rw [if_neg c4]
    by_cases c5 : msg.str = "h" ∨ msg.str = "left"
    · rw [if_pos c5]
      constructor <;> split <;> first | rfl | (split <;> rfl)
    rw [if_neg c5]
    by_cases c6 : msg.str = "d"
    · exact absurd c6 h1
    rw [if_neg c6]
    by_cases c7 : msg.str = "D"
    · exact absurd c7 h2
    rw [if_neg c7]
    by_cases c8 : msg.str = "y"
    · exact absurd c8 h3
    rw [if_neg c8]
    by_cases c9 : msg.str = "p"
    · exact absurd c9 h4
    rw [if_neg c9]
    by_cases c10 : msg.str = "/"
    · rw [if_pos c10]; exact ⟨rfl, rfl⟩
    rw [if_neg c10]
    by_cases c11 : msg.str = "a"
    · rw [if_pos c11]
      constructor <;> split <;> first | rfl | (split <;> rfl)
    rw [if_neg c11]
    by_cases c12 : msg.str = "z"
    · rw [if_pos c12]; exact ⟨rfl, rfl⟩
    rw [if_neg c12]
    by_cases c13 : msg.str = "g"
    · exact absurd c13 h5
    rw [if_neg c13]
    by_cases c14 : msg.str = "G"
    · rw [if_pos c14]; exact ⟨rfl, rfl⟩
    rw [if_neg c14]
    by_cases c15 : msg.str = "u"
    · rw [if_pos c15]; exact undoLastAction_chord_state m w
    rw [if_neg c15]
    by_cases c16 : msg.str = "S"
    · rw [if_pos c16]; exact ⟨rfl, rfl⟩
    rw [if_neg c16]
    by_cases c17 : msg.str = "?"
    · rw [if_pos c17]; exact ⟨rfl, rfl⟩
    rw [if_neg c17]
    exact ⟨rfl, rfl⟩
  · intro m w t1 t2 t3 s hs hr hz hlast hlen h0 h1 hkey ht
    have e1 := update_d_noresolve m t1 w hs hr hz hlast
    rw [e1]
    dsimp only
    set m1 : FileManager := { m with lastCommand := "d", commandTime := t1 } with hm1
    have e2 := (update_movement m1 t2 w s hs hr hz (hkey.imp id Or.inl)).1 hkey
    rw [e2]
    dsimp only
    have hcur : m1.cursor = m.cursor := rfl
    by_cases hc : m1.cursor > 0
    · rw [if_pos hc]
      have e3 := update_d_resolve { m1 with cursor := m1.cursor - 1 } t3 w hs hr hz rfl ht
      rw [e3]
      dsimp only
      obtain ⟨entry, he, hstack, hop, _⟩ := cutFile_pushes
        { m1 with cursor := m1.cursor - 1, lastCommand := "" }
        (by show (0 : Int) ≤ m1.cursor - 1; omega)
        (by show m1.cursor - 1 < (m.entries.length : Int); omega)
        hlen
      exact ⟨{ type := "cut", oldPath := entry.path, newPath := none, entry := entry,
               oldName := "" }, hstack, rfl, hop⟩
    · rw [if_neg hc]
      have e3 := update_d_resolve m1 t3 w hs hr hz rfl ht
      rw [e3]
      dsimp only
      obtain ⟨entry, he, hstack, hop, _⟩ := cutFile_pushes { m1 with lastCommand := "" }
        (by show (0 : Int) ≤ m1.cursor; omega)
        (by show m1.cursor < (m.entries.length : Int); omega)
        hlen
      exact ⟨{ type := "cut", oldPath := entry.path, newPath := none, entry := entry,
               oldName := "" }, hstack, rfl, hop⟩

/-- State used for the C6 counterexample: browsing `/home`, cursor on
`a.txt`. -/
def mC6 : FileManager := { exM with cursor := 1 }

/-- After pressing `d` at 0 ms. -/
def sC6a : FileManager × World := mC6.update { type := KeyType.char, str := "d" } 0 exW

/-- After pressing the movement key `k` at 100 ms. -/
def sC6b : FileManager × World := sC6a.1.update { type := KeyType.char, str := "k" } 100 sC6a.2

/-- After pressing `d` again at 200 ms. -/
def sC6c : FileManager × World := sC6b.1.update { type := KeyType.char, str := "d" } 200 sC6b.2

/-- Counterexample to C6 as stated: pressing `d`, then the unrelated
movement key `k`, then `d` again, all within 500 ms, the movement key does
NOT clear the pending chord (it is still `"d"` afterwards) and the second
`d` DOES resolve the chord — the cut executes, pushing a `"cut"` action. -/
theorem chord_unrelated_key_cex :
    sC6b.1.lastCommand = "d"
    ∧ sC6c.1.clipboardOp = "cut"
    ∧ sC6c.1.undoStack ≠ [] := by decide

/-- Witness for the amended C6 at the same concrete inputs. -/
theorem chord_state_unrelated_keys_witness :
    (sC6b.1.update { type := KeyType.char, str := "d" } 200 sC6b.2).1.clipboardOp = "cut" :=
  (chord_state_unrelated_keys.2 mC6 exW 0 100 200 "k" rfl rfl rfl (by decide) (by decide)
    (by decide) (by decide) (Or.inr rfl) (by decide)).choose_spec.2.2

/-! ## C7: ascend to the parent directory -/

/-- C7 (amended): at the file-system root the ascend key is a no-op;
otherwise it sets the current path to the parent, reloads the listing, and
puts the cursor on the first entry named like the directory just left —
falling back to leaving the cursor UNCHANGED (not to cursor = 0) when no
entry of that name appears in the parent listing. -/
theorem ascend_semantics (m : FileManager) (now : Int) (w : World)
    (hs : m.searchMode = false) (hr : m.renameMode = false) (hz : m.zoxideMode = false) :
    (parentPath m.currentPath = m.currentPath →
      m.update { type := KeyType.char, str := "h" } now w = (m, w))
    ∧ (parentPath m.currentPath ≠ m.currentPath →
        (m.update { type := KeyType.char, str := "h" } now w).2 = w
        ∧ (m.update { type := KeyType.char, str := "h" } now w).1.currentPath
            = parentPath m.currentPath
        ∧ (m.update { type := KeyType.char, str := "h" } now w).1.entries
            = readDirectory w.fs (parentPath m.currentPath)
        ∧ (∀ i : Nat, (readDirectory w.fs (parentPath m.currentPath)).findIdx?
              (fun e => decide (e.name = basePath m.currentPath)) = some i →
            (m.update { type := KeyType.char, str := "h" } now w).1.cursor = (i : Int))
        ∧ ((readDirectory w.fs (parentPath m.currentPath)).findIdx?
              (fun e => decide (e.name = basePath m.currentPath)) = none →
            (m.update { type := KeyType.char, str := "h" } now w).1.cursor = m.cursor)) := by
  constructor
  · intro hroot
    unfold FileManager.update
    simp [hs, hr, hz, hroot]
  · intro hroot
    unfold FileManager.update
    simp only [hs, hr, hz, Bool.false_eq_true, if_false]
    rw [if_neg (by decide), if_neg (by decide), if_neg (by decide), if_neg (by decide),
      if_pos (Or.inl trivial), if_pos hroot]
    rcases hidx : (readDirectory w.fs (parentPath m.currentPath)).findIdx?
        (fun e => decide (e.name = basePath m.currentPath)) with _ | i <;>
      rw [hidx] <;>
      refine ⟨rfl, rfl, rfl, ?_, ?_⟩
    · intro j hj
      exact absurd hj (by simp)
    · intro _
      rfl
    · intro j hj
      cases hj
      rfl
    · intro hn
      exact absurd hn (by simp)

/-- File system for the C7 counterexample: `/home` contains a hidden
directory `.hid` (with two files) that the listing of `/home` skips. -/
def fsC7 : Fs :=
  [{ path := ["home"], isDir := true, content := "" },
   { path := ["home", ".hid"], isDir := true, content := "" },
   { path := ["home", "x.txt"], isDir := false, content := "X" },
   { path := ["home", "y.txt"], isDir := false, content := "Y" },
   { path := ["home", ".hid", "f.txt"], isDir := false, content := "F" },
   { path := ["home", ".hid", "g.txt"], isDir := false, content := "G" }]

/-- Browsing inside `/home/.hid` (reachable via the zoxide jump), cursor
moved to the second file. -/
def mC7 : FileManager :=
  { exM with currentPath := ["home", ".hid"],
             entries := readDirectory fsC7 ["home", ".hid"], cursor := 1 }

/-- World for the C7 counterexample. -/
def wC7 : World := { fs := fsC7, nextTmp := 0, zoxideDb := [] }

/-- Counterexample to C7 as stated: ascending out of `/home/.hid` finds no
entry named `.hid` in the (hidden-free) parent listing, yet the cursor
stays at its old value 1 instead of falling back to 0 as the claim says. -/
theorem ascend_fallback_cex :
    (readDirectory fsC7 ["home"]).findIdx?
        (fun e => decide (e.name = basePath mC7.currentPath)) = none
    ∧ (mC7.update { type := KeyType.char, str := "h" } 0 wC7).1.cursor = 1
    ∧ ((1 : Int) = 0 → False) := by decide

/-- Browsing `/home/sub` on `exFs` (used by the C7 witness). -/
def mC7b : FileManager :=
  { exM with currentPath := ["home", "sub"], entries := readDirectory exFs ["home", "sub"] }

/-- Witness for the amended C7, exercising both the no-op-at-root part and
the found-index part. -/
theorem ascend_semantics_witness :
    (({ exM with currentPath := [] } : FileManager).update
        { type := KeyType.char, str := "h" } 0 exW
      = ({ exM with currentPath := [] }, exW))
    ∧ (mC7b.update { type := KeyType.char, str := "h" } 0 exW).1.cursor = (0 : Int) :=
  ⟨(ascend_semantics { exM with currentPath := [] } 0 exW rfl rfl rfl).1 rfl,
   ((ascend_semantics mC7b 0 exW rfl rfl rfl).2 (by decide)).2.2.2.1 0 (by decide)⟩

/-! ## C10: the cursor and `G` on an empty listing -/

theorem handleDoubleCommand_cursor (m : FileManager) (c : String) (t : Int) :
    (m.handleDoubleCommand c t).2.cursor = m.cursor := by
  unfold FileManager.handleDoubleCommand
  split_ifs <;> rfl

theorem copyFile_cursor (m : FileManager) : m.copyFile.cursor = m.cursor := by
  unfold FileManager.copyFile
  repeat' (first | split | dsimp only)
  all_goals rfl

theorem pasteFile_cursor (m : FileManager) (w : World) :
    (m.pasteFile w).1.cursor = m.cursor := by
  unfold FileManager.pasteFile
  repeat' (first | split | dsimp only)
  all_goals rfl

theorem undoLastAction_cursor (m : FileManager) (w : World) :
    (m.undoLastAction w).1.cursor = m.cursor := by
  unfold FileManager.undoLastAction
  repeat' (first | split | dsimp only)
  all_goals rfl

theorem cutFile_cursor_nonneg (m : FileManager) (h : 0 ≤ m.cursor) :
    0 ≤ m.cutFile.cursor := by
  unfold FileManager.cutFile
  repeat' (first | split | dsimp only)
  all_goals first | exact h | exact Int.ofNat_nonneg _ | omega

theorem deleteFile_cursor_nonneg (m : FileManager) (w : World) (h : 0 ≤ m.cursor) :
    0 ≤ (m.deleteFile w).1.cursor := by
  unfold FileManager.deleteFile
  repeat' (first | split | dsimp only)
  all_goals first | exact h | exact Int.ofNat_nonneg _ | omega

theorem renameFile_cursor_nonneg (m : FileManager) (w : World) (nn : String)
    (h : 0 ≤ m.cursor) : 0 ≤ (m.renameFile w nn).1.cursor := by
  unfold FileManager.renameFile
  repeat' (first | split | dsimp only)
  all_goals first | exact h | exact Int.ofNat_nonneg _ | omega

theorem searchFiles_cursor_nonneg (m : FileManager) (q : String) (h : 0 ≤ m.cursor) :
    0 ≤ (m.searchFiles q).cursor := by
  unfold FileManager.searchFiles
  repeat' (first | split | dsimp only)
  all_goals first | exact h | exact Int.ofNat_nonneg _ | omega

theorem navigateWithZoxide_cursor_nonneg (m : FileManager) (w : World) (q : String)
    (h : 0 ≤ m.cursor) : 0 ≤ (m.navigateWithZoxide w q).cursor := by
  unfold FileManager.navigateWithZoxide
  repeat' (first | split | dsimp only)
  all_goals first | exact h | exact Int.ofNat_nonneg _ | omega

theorem tryEnterDirectory_cursor_nonneg (m : FileManager) (w : World) (h : 0 ≤ m.cursor) :
    0 ≤ (m.tryEnterDirectory w).cursor := by
  unfold FileManager.tryEnterDirectory
  repeat' (first | split | dsimp only)
  all_goals first | exact h | exact Int.ofNat_nonneg _ | omega

set_option maxHeartbeats 1600000 in
/-- C10: in Normal mode on an empty listing, `G` sets the cursor to
`len(entries) - 1 = -1` instead of clamping to 0; on a non-empty listing
`G` yields a non-negative cursor; and every key other than `G` keeps a
non-negative cursor non-negative (in any mode), so only `G` can drive the
cursor negative. -/
theorem cursor_negative_G :
    (∀ (m : FileManager) (now : Int) (w : World),
      m.searchMode = false → m.renameMode = false → m.zoxideMode = false →
      m.entries = [] →
      (m.update { type := KeyType.char, str := "G" } now w).1.cursor = -1)
    ∧ (∀ (m : FileManager) (now : Int) (w : World),
      m.searchMode = false → m.renameMode = false → m.zoxideMode = false →
      m.entries ≠ [] →
      0 ≤ (m.update { type := KeyType.char, str := "G" } now w).1.cursor)
    ∧ (∀ (m : FileManager) (msg : KeyMsg) (now : Int) (w : World),
      0 ≤ m.cursor → msg.str ≠ "G" →
      0 ≤ (m.update msg now w).1.cursor) := by
  refine ⟨?_, ?_, ?_⟩
  · intro m now w hs hr hz hemp
    unfold FileManager.update
    simp [hs, hr, hz, hemp]
  · intro m now w hs hr hz hne
    have hpos : 0 < m.entries.length := List.length_pos.2 hne
    unfold FileManager.update
    simp only [hs, hr, hz, Bool.false_eq_true, if_false]
    rw [if_neg (by decide), if_neg (by decide), if_neg (by decide), if_neg (by decide),
      if_neg (by decide), if_neg (by decide), if_neg (by decide), if_neg (by decide),
      if_neg (by decide), if_neg (by decide), if_neg (by decide), if_neg (by decide),
      if_neg (by decide), if_pos trivial]
    dsimp only
    omega
  · intro m msg now w h hG
    unfold FileManager.update
    cases hsearch : m.searchMode
    case true =>
      rw [if_pos rfl]
      cases msg
      case mk ty s =>
        cases ty <;> dsimp only
        · exact searchFiles_cursor_nonneg _ m.searchQuery h
        · exact h
        · split <;> exact h
        · exact h
    case false =>
    rw [if_neg (by simp)]
    cases hrename : m.renameMode
    case true =>
      rw [if_pos rfl]
      cases msg
      case mk ty s =>
        cases ty <;> dsimp only
        · exact renameFile_cursor_nonneg _ w m.renameText h
        · exact h
        · split <;> exact h
        · exact h
    case false =>
    rw [if_neg (by simp)]
    cases hzox : m.zoxideMode
    case true =>
      rw [if_pos rfl]
      cases msg
      case mk ty s =>
        cases ty <;> dsimp only
        · exact navigateWithZoxide_cursor_nonneg _ w m.zoxideQuery h
        · exact h
        · split <;> exact h
        · exact h
    case false =>
    rw [if_neg (by simp)]
    by_cases c1 : msg.str = "ctrl+c" ∨ msg.str = "q"
    · rw [if_pos c1]; exact h
    rw [if_neg c1]
    by_cases c2 : msg.str = "up" ∨ msg.str = "k"
    · rw [if_pos c2]; dsimp only; split
      · dsimp only; omega
      · exact h
    rw [if_neg c2]
    by_cases c3 : msg.str = "down" ∨ msg.str = "j"
    · rw [if_pos c3]; dsimp only; split
      · dsimp only; omega
      · exact h
    rw [if_neg c3]
    by_cases c4 : msg.str = "l" ∨ msg.str = "enter" ∨ msg.str = "right"
    · rw [if_pos c4]; exact tryEnterDirectory_cursor_nonneg m w h
    rw [if_neg c4]
    by_cases c5 : msg.str = "h" ∨ msg.str = "left"
    · rw [if_pos c5]
      dsimp only
      split
      · split
        · exact Int.ofNat_nonneg _
        · exact h
      · exact h
    rw [if_neg c5]
    by_cases c6 : msg.str = "d"
    · rw [if_pos c6]
      dsimp only
      split
      · exact cutFile_cursor_nonneg _ (by rw [handleDoubleCommand_cursor]; exact h)
      · rw [handleDoubleCommand_cursor]; exact h
    rw [if_neg c6]
    by_cases c7 : msg.str = "D"
    · rw [if_pos c7]
      dsimp only
      split
      · exact deleteFile_cursor_nonneg m w h
      · split
        · exact deleteFile_cursor_nonneg _ w (by rw [handleDoubleCommand_cursor]; exact h)
        · rw [handleDoubleCommand_cursor]; exact h
    rw [if_neg c7]
    by_cases c8 : msg.str = "y"
    · rw [if_pos c8]
      dsimp only
      split
      · rw [copyFile_cursor, handleDoubleCommand_cursor]; exact h
      · rw [handleDoubleCommand_cursor]; exact h
    rw [if_neg c8]
    by_cases c9 : msg.str = "p"
    · rw [if_pos c9]
      dsimp only
      split
      · rw [pasteFile_cursor, handleDoubleCommand_cursor]; exact h
      · rw [handleDoubleCommand_cursor]; exact h
    rw [if_neg c9]
    by_cases c10 : msg.str = "/"
    · rw [if_pos c10]; exact h
    rw [if_neg c10]
    by_cases c11 : msg.str = "a"
    · rw [if_pos c11]
      split
      · split <;> exact h
      · exact h
    rw [if_neg c11]
    by_cases c12 : msg.str = "z"
    · rw [if_pos c12]; exact h
    rw [if_neg c12]
    by_cases c13 : msg.str = "g"
    · rw [if_pos c13]
      dsimp only
      split
      · dsimp only; omega
      · rw [handleDoubleCommand_cursor]; exact h
    rw [if_neg c13]
    by_cases c14 : msg.str = "G"
    · exact absurd c14 hG
    rw [if_neg c14]
    by_cases c15 : msg.str = "u"
    · rw [if_pos c15]; rw [undoLastAction_cursor]; exact h
    rw [if_neg c15]
    by_cases c16 : msg.str = "S"
    · rw [if_pos c16]; exact h
    rw [if_neg c16]
    by_cases c17 : msg.str = "?"
    · rw [if_pos c17]; exact h
    rw [if_neg c17]
    exact h

/-- Witness for C10: an empty directory state where `G` drives the cursor
to `-1`, plus the non-`G` preservation at a concrete key. -/
theorem cursor_negative_G_witness :
    (({ exM with currentPath := ["home", "sub", "x"], entries := [] } : FileManager).update
        { type := KeyType.char, str := "G" } 0 exW).1.cursor = -1
    ∧ 0 ≤ (exM.update { type := KeyType.char, str := "j" } 0 exW).1.cursor :=
  ⟨cursor_negative_G.1 { exM with currentPath := ["home", "sub", "x"], entries := [] } 0 exW
      rfl rfl rfl rfl,
   cursor_negative_G.2.2 exM { type := KeyType.char, str := "j" } 0 exW (by decide) (by decide)⟩

/-! ## C9: mode isolation -/

theorem searchFiles_clipboard (m : FileManager) (q : String) :
    (m.searchFiles q).clipboard = m.clipboard
    ∧ (m.searchFiles q).clipboardOp = m.clipboardOp
    ∧ (m.searchFiles q).undoStack = m.undoStack := by
  unfold FileManager.searchFiles
  repeat' (first | split | dsimp only)
  all_goals exact ⟨rfl, rfl, rfl⟩

theorem renameFile_clipboard (m : FileManager) (w : World) (nn : String) :
    (m.renameFile w nn).1.clipboard = m.clipboard
    ∧ (m.renameFile w nn).1.clipboardOp = m.clipboardOp := by
  unfold FileManager.renameFile
  repeat' (first | split | dsimp only)
  all_goals exact ⟨rfl, rfl⟩

theorem navigateWithZoxide_clipboard (m : FileManager) (w : World) (q : String) :
    (m.navigateWithZoxide w q).clipboard = m.clipboard
    ∧ (m.navigateWithZoxide w q).clipboardOp = m.clipboardOp
    ∧ (m.navigateWithZoxide w q).undoStack = m.undoStack := by
  unfold FileManager.navigateWithZoxide
  repeat' (first | split | dsimp only)
  all_goals exact ⟨rfl, rfl, rfl⟩

/-- C9: while Search, Rename or Jump (zoxide) mode is active, no
Normal-mode command runs: the clipboard is never touched; any key other
than confirm leaves the world, undo ledger, listing, cursor and path
unchanged (only the active text buffer or the mode flag moves); and the
full per-key behaviour of each mode is exactly
confirm / cancel / backspace / append. -/
theorem mode_isolation (m : FileManager) (msg : KeyMsg) (now : Int) (w : World)
    (hmode : m.searchMode = true ∨ m.renameMode = true ∨ m.zoxideMode = true) :
    ((m.update msg now w).1.clipboard = m.clipboard
      ∧ (m.update msg now w).1.clipboardOp = m.clipboardOp)
    ∧ (msg.type ≠ KeyType.enter →
        (m.update msg now w).2 = w
        ∧ (m.update msg now w).1.undoStack = m.undoStack
        ∧ (m.update msg now w).1.entries = m.entries
        ∧ (m.update msg now w).1.cursor = m.cursor
        ∧ (m.update msg now w).1.currentPath = m.currentPath)
    ∧ (m.searchMode = true →
        m.update msg now w = (match msg.type with
          | KeyType.enter =>
            ({ FileManager.searchFiles { m with searchMode := false } m.searchQuery with
                searchQuery := "" }, w)
          | KeyType.esc => ({ m with searchMode := false, searchQuery := "" }, w)
          | KeyType.backspace =>
            ((if m.searchQuery.length > 0 then { m with searchQuery := strDropLast m.searchQuery }
              else m), w)
          | KeyType.char => ({ m with searchQuery := m.searchQuery ++ msg.str }, w)))
    ∧ (m.searchMode = false → m.renameMode = true →
        m.update msg now w = (match msg.type with
          | KeyType.enter =>
            ({ (FileManager.renameFile { m with renameMode := false } w m.renameText).1 with
                renameText := "" },
              (FileManager.renameFile { m with renameMode := false } w m.renameText).2)
          | KeyType.esc => ({ m with renameMode := false, renameText := "" }, w)
          | KeyType.backspace =>
            ((if m.renameText.length > 0 then { m with renameText := strDropLast m.renameText }
              else m), w)
          | KeyType.char => ({ m with renameText := m.renameText ++ msg.str }, w)))
    ∧ (m.searchMode = false → m.renameMode = false → m.zoxideMode = true →
        m.update msg now w = (match msg.type with
          | KeyType.enter =>
            ({ FileManager.navigateWithZoxide { m with zoxideMode := false } w m.zoxideQuery with
                zoxideQuery := "" }, w)
          | KeyType.esc => ({ m with zoxideMode := false, zoxideQuery := "" }, w)
          | KeyType.backspace =>
            ((if m.zoxideQuery.length > 0 then { m with zoxideQuery := strDropLast m.zoxideQuery }
              else m), w)
          | KeyType.char => ({ m with zoxideQuery := m.zoxideQuery ++ msg.str }, w))) := by
  rcases msg with ⟨ty, s⟩
  refine ⟨?_, ?_, ?_, ?_, ?_⟩
  · cases hsearch : m.searchMode
    case true =>
      unfold FileManager.update
      rw [if_pos hsearch]
      cases ty <;> dsimp only
      · exact ⟨((searchFiles_clipboard _ m.searchQuery).1), ((searchFiles_clipboard _ m.searchQuery).2.1)⟩
      · exact ⟨rfl, rfl⟩
      · constructor <;> split <;> rfl
      · exact ⟨rfl, rfl⟩
    case false =>
    cases hrename : m.renameMode
    case true =>
      unfold FileManager.update
      rw [if_neg (by simp [hsearch]), if_pos hrename]
      cases ty <;> dsimp only
      · exact ⟨((renameFile_clipboard _ w m.renameText).1), ((renameFile_clipboard _ w m.renameText).2)⟩
      · exact ⟨rfl, rfl⟩
      · constructor <;> split <;> rfl
      · exact ⟨rfl, rfl⟩
    case false =>
    cases hzox : m.zoxideMode
    case true =>
      unfold FileManager.update
      rw [if_neg (by simp [hsearch]), if_neg (by simp [hrename]), if_pos hzox]
      cases ty <;> dsimp only
      · exact ⟨((navigateWithZoxide_clipboard _ w m.zoxideQuery).1),
          ((navigateWithZoxide_clipboard _ w m.zoxideQuery).2.1)⟩
      · exact ⟨rfl, rfl⟩
      · constructor <;> split <;> rfl
      · exact ⟨rfl, rfl⟩
    case false =>
      rcases hmode with hx | hx | hx <;> simp_all
  · intro hne
    cases hsearch : m.searchMode
    case true =>
      unfold FileManager.update
      rw [if_pos hsearch]
      cases ty <;> dsimp only
      · exact absurd rfl hne
      · exact ⟨rfl, rfl, rfl, rfl, rfl⟩
      · refine ⟨?_, ?_, ?_, ?_, ?_⟩ <;> first | rfl | (split <;> rfl)
      · exact ⟨rfl, rfl, rfl, rfl, rfl⟩
    case false =>
    cases hrename : m.renameMode
    case true =>
      unfold FileManager.update
      rw [if_neg (by simp [hsearch]), if_pos hrename]
      cases ty <;> dsimp only
      · exact absurd rfl hne
      · exact ⟨rfl, rfl, rfl, rfl, rfl⟩
      · refine ⟨?_, ?_, ?_, ?_, ?_⟩ <;> first | rfl | (split <;> rfl)
      · exact ⟨rfl, rfl, rfl, rfl, rfl⟩
    case false =>
    cases hzox : m.zoxideMode
    case true =>
      unfold FileManager.update
      rw [if_neg (by simp [hsearch]), if_neg (by simp [hrename]), if_pos hzox]
      cases ty <;> dsimp only
      · exact absurd rfl hne
      · exact ⟨rfl, rfl, rfl, rfl, rfl⟩
      · refine ⟨?_, ?_, ?_, ?_, ?_⟩ <;> first | rfl | (split <;> rfl)
      · exact ⟨rfl, rfl, rfl, rfl, rfl⟩
    case false =>
      rcases hmode with hx | hx | hx <;> simp_all
  · intro hS
    unfold FileManager.update
    rw [if_pos hS]
  · intro hS hR
    unfold FileManager.update
    rw [if_neg (by simp [hS]), if_pos hR]
  · intro hS hR hZ
    unfold FileManager.update
    rw [if_neg (by simp [hS]), if_neg (by simp [hR]), if_pos hZ]

/-- Witness for C9 in search mode at a concrete character key. -/
theorem mode_isolation_witness :
    (({ exM with searchMode := true, searchQuery := "a" } : FileManager).update
        { type := KeyType.char, str := "d" } 0 exW).1.clipboard
      = ({ exM with searchMode := true, searchQuery := "a" } : FileManager).clipboard
    ∧ (({ exM with searchMode := true, searchQuery := "a" } : FileManager).update
        { type := KeyType.char, str := "d" } 0 exW
      = ({ exM with searchMode := true, searchQuery := "ad" }, exW)) :=
  ⟨(mode_isolation { exM with searchMode := true, searchQuery := "a" }
      { type := KeyType.char, str := "d" } 0 exW (Or.inl rfl)).1.1,
   by
    have h := (mode_isolation { exM with searchMode := true, searchQuery := "a" }
      { type := KeyType.char, str := "d" } 0 exW (Or.inl rfl)).2.2.1 rfl
    rw [h]
    rfl⟩

/-! ## C3: undo failure policy -/

/-- C3: undo pops the most recent ledger entry; an empty ledger is a no-op;
for `delete`/`move`/`rename` entries a failing reversing move re-pushes the
entry unchanged with no other state change (retryable), while success
reloads the listing; a `copy` entry removes the created destination
(best-effort — the source ignores the removal error) and is discarded; a
`cut` entry only clears the clipboard and always succeeds, reloading the
listing. -/
theorem undo_failure_policy :
    (∀ (m : FileManager) (w : World), m.undoStack = [] → m.undoLastAction w = (m, w))
    ∧ (∀ (m : FileManager) (w : World) (s : List UndoAction) (a : UndoAction) (np : FPath),
        m.undoStack = s ++ [a] →
        (a.type = "delete" ∨ a.type = "move" ∨ a.type = "rename") →
        a.newPath = some np →
        rename np a.oldPath w.fs = none →
        m.undoLastAction w = (m, w))
    ∧ (∀ (m : FileManager) (w : World) (s : List UndoAction) (a : UndoAction) (np : FPath)
        (fs2 : Fs),
        m.undoStack = s ++ [a] →
        (a.type = "delete" ∨ a.type = "move" ∨ a.type = "rename") →
        a.newPath = some np →
        rename np a.oldPath w.fs = some fs2 →
        m.undoLastAction w
          = ({ m with undoStack := s, entries := readDirectory fs2 m.currentPath },
             { w with fs := fs2 }))
    ∧ (∀ (m : FileManager) (w : World) (s : List UndoAction) (a : UndoAction) (np : FPath),
        m.undoStack = s ++ [a] → a.type = "copy" → a.newPath = some np →
        m.undoLastAction w
          = ({ m with undoStack := s,
                      entries := readDirectory (removeAll np w.fs) m.currentPath },
             { w with fs := removeAll np w.fs }))
    ∧ (∀ (m : FileManager) (w : World) (s : List UndoAction) (a : UndoAction),
        m.undoStack = s ++ [a] → a.type = "cut" →
        m.undoLastAction w
          = ({ m with undoStack := s, clipboard := none, clipboardOp := "",
                      entries := readDirectory w.fs m.currentPath }, w)) := by
  refine ⟨?_, ?_, ?_, ?_, ?_⟩
  · intro m w h
    unfold FileManager.undoLastAction
    rw [h]
    rfl
  · intro m w s a np hstack htype hnp hre
    unfold FileManager.undoLastAction
    rw [hstack, List.getLast?_concat]
    dsimp only
    rw [List.dropLast_concat]
    rcases htype with h | h | h
    · rw [h, if_pos rfl, hnp]
      dsimp only
      rw [hre]
      dsimp only
      rw [← hstack]
    · rw [h, if_neg (by decide), if_neg (by decide), if_neg (by decide),
        if_pos (Or.inl rfl), hnp]
      dsimp only
      rw [hre]
      dsimp only
      rw [← hstack]
    · rw [h, if_neg (by decide), if_neg (by decide), if_neg (by decide),
        if_pos (Or.inr rfl), hnp]
      dsimp only
      rw [hre]
      dsimp only
      rw [← hstack]
  · intro m w s a np fs2 hstack htype hnp hre
    unfold FileManager.undoLastAction
    rw [hstack, List.getLast?_concat]
    dsimp only
    rw [List.dropLast_concat]
    rcases htype with h | h | h
    · rw [h, if_pos rfl, hnp]
      dsimp only
      rw [hre]
    · rw [h, if_neg (by decide), if_neg (by decide), if_neg (by decide),
        if_pos (Or.inl rfl), hnp]
      dsimp only
      rw [hre]
    · rw [h, if_neg (by decide), if_neg (by decide), if_neg (by decide),
        if_pos (Or.inr rfl), hnp]
      dsimp only
      rw [hre]
  · intro m w s a np hstack htype hnp
    unfold FileManager.undoLastAction
    rw [hstack, List.getLast?_concat]
    dsimp only
    rw [List.dropLast_concat, htype, if_neg (by decide), if_neg (by decide), if_pos rfl,
      hnp]
  · intro m w s a hstack htype
    unfold FileManager.undoLastAction
    rw [hstack, List.getLast?_concat]
    dsimp only
    rw [List.dropLast_concat, htype, if_neg (by decide), if_pos rfl]

/-- A stale `delete` ledger entry whose trash path no longer exists (used
by the C3 witness). -/
def aC3 : UndoAction :=
  { type := "delete", oldPath := ["home", "a.txt"],
    newPath := some ["tmp", "tfm_trash_0", "a.txt"],
    entry := { name := "a.txt", path := ["home", "a.txt"], isDir := false },
    oldName := "" }

/-- `exM` with that single ledger entry. -/
def mC3 : FileManager := { exM with undoStack := [aC3] }

/-- Witness for C3: the failing reversing move re-pushes the entry (state
unchanged), and undo on an empty ledger is a no-op. -/
theorem undo_failure_policy_witness :
    mC3.undoLastAction exW = (mC3, exW) ∧ exM.undoLastAction exW = (exM, exW) :=
  ⟨undo_failure_policy.2.1 mC3 exW [] aC3 ["tmp", "tfm_trash_0", "a.txt"] rfl (Or.inl rfl)
      rfl (by decide),
   undo_failure_policy.1 exM exW rfl⟩

/-! ## C8: pushes only after a successful file-system call -/

theorem rename_some_exists_dst {src dst : FPath} {fs fs2 : Fs}
    (h : rename src dst fs = some fs2) : pathExists fs2 dst = true := by
  unfold rename at h
  split at h
  case isFalse => exact absurd h (by simp)
  case isTrue hc =>
    obtain ⟨hsrc, _, _, hds⟩ := hc
    cases h
    obtain ⟨e, he, hep⟩ := pathExists_iff.1 hsrc
    refine pathExists_iff.2 ⟨{ e with path := replacePrefix src dst e.path }, ?_, ?_⟩
    · refine List.mem_map.2 ⟨e, List.mem_filter.2 ⟨he, ?_⟩, ?_⟩
      · rw [hep, hds]
        rfl
      · rw [if_pos (by rw [hep]; exact isSub_iff.2 (List.prefix_refl src))]
    · show replacePrefix src dst e.path = dst
      rw [hep]
      unfold replacePrefix
      rw [List.drop_length, List.append_nil]

theorem rename_some_not_exists_src {src dst : FPath} {fs fs2 : Fs}
    (h : rename src dst fs = some fs2) : pathExists fs2 src = false := by
  unfold rename at h
  split at h
  case isFalse => exact absurd h (by simp)
  case isTrue hc =>
    obtain ⟨hsrc, _, hsd, hds⟩ := hc
    cases h
    refine pathExists_eq_false_iff.2 ?_
    intro e2 he2
    obtain ⟨e, he, hfe⟩ := List.mem_map.1 he2
    by_cases hp : isSub src e.path = true
    · rw [if_pos hp] at hfe
      subst hfe
      intro hcontra
      have : dst <+: src := ⟨e.path.drop src.length, hcontra⟩
      exact (isSub_eq_false_iff.1 hds) this
    · rw [if_neg hp] at hfe
      subst hfe
      intro hcontra
      exact hp (by rw [hcontra]; exact isSub_iff.2 (List.prefix_refl src))

theorem copyFileOrDir_some_exists_dst {src dst : FPath} {fs fs2 : Fs}
    (h : copyFileOrDir src dst fs = some fs2) : pathExists fs2 dst = true := by
  unfold copyFileOrDir at h
  split at h
  case isFalse => exact absurd h (by simp)
  case isTrue hc =>
    obtain ⟨hsrc, _⟩ := hc
    cases h
    obtain ⟨e, he, hep⟩ := pathExists_iff.1 hsrc
    refine pathExists_iff.2 ⟨{ e with path := replacePrefix src dst e.path }, ?_, ?_⟩
    · refine List.mem_append.2 (Or.inr ?_)
      refine List.mem_map.2 ⟨e, List.mem_filter.2 ⟨he, ?_⟩, rfl⟩
      rw [hep]
      exact isSub_iff.2 (List.prefix_refl src)
    · show replacePrefix src dst e.path = dst
      rw [hep]
      unfold replacePrefix
      rw [List.drop_length, List.append_nil]

/-- C8: a ledger entry is pushed only after the corresponding file-system
call reports success.  For every operation the ledger either is untouched
or grows by exactly one action whose recorded destination really exists in
the resulting file system (and, for delete, whose origin was really
vacated); the `cut` tracking entry records no destination and involves no
file-system call at all. -/
theorem ledger_push_invariant :
    (∀ m : FileManager, m.cutFile.undoStack = m.undoStack
      ∨ ∃ a : UndoAction, m.cutFile.undoStack = m.undoStack ++ [a]
          ∧ a.type = "cut" ∧ a.newPath = none)
    ∧ (∀ (m : FileManager) (w : World),
        (m.deleteFile w).1.undoStack = m.undoStack
        ∨ ∃ (a : UndoAction) (np : FPath),
            (m.deleteFile w).1.undoStack = m.undoStack ++ [a]
            ∧ a.type = "delete" ∧ a.newPath = some np
            ∧ pathExists (m.deleteFile w).2.fs np = true
            ∧ pathExists (m.deleteFile w).2.fs a.oldPath = false)
    ∧ (∀ (m : FileManager) (w : World),
        (m.pasteFile w).1.undoStack = m.undoStack
        ∨ ∃ (a : UndoAction) (np : FPath),
            (m.pasteFile w).1.undoStack = m.undoStack ++ [a]
            ∧ (a.type = "move" ∨ a.type = "copy") ∧ a.newPath = some np
            ∧ pathExists (m.pasteFile w).2.fs np = true)
    ∧ (∀ (m : FileManager) (w : World) (nn : String),
        (m.renameFile w nn).1.undoStack = m.undoStack
        ∨ ∃ (a : UndoAction) (np : FPath),
            (m.renameFile w nn).1.undoStack = m.undoStack ++ [a]
            ∧ a.type = "rename" ∧ a.newPath = some np
            ∧ pathExists (m.renameFile w nn).2.fs np = true
            ∧ pathExists (m.renameFile w nn).2.fs a.oldPath = false) := by
  refine ⟨?_, ?_, ?_, ?_⟩
  · intro m
    unfold FileManager.cutFile
    by_cases hv : 0 < m.entries.length ∧ m.cursor < (m.entries.length : Int)
    · rw [if_pos hv]
      rcases hn : nthInt m.entries m.cursor with _ | entry
      · exact Or.inl rfl
      · dsimp only
        split
        · exact Or.inr ⟨_, rfl, rfl, rfl⟩
        · split
          · exact Or.inr ⟨_, rfl, rfl, rfl⟩
          · exact Or.inr ⟨_, rfl, rfl, rfl⟩
    · rw [if_neg hv]
      exact Or.inl rfl
  · intro m w
    unfold FileManager.deleteFile
    by_cases hv : 0 < m.entries.length ∧ m.cursor < (m.entries.length : Int)
    · rw [if_pos hv]
      rcases hn : nthInt m.entries m.cursor with _ | entry
      · exact Or.inl rfl
      · rcases ht : (if m.trashDir = ([] : FPath) then mkdirTemp w else some (m.trashDir, w))
          with _ | ⟨td, w1⟩
        · exact Or.inl rfl
        · dsimp only
          rcases hf : freshTrashName w1.fs td entry.name (w1.fs.length + 1) 0 with _ | tn
          · exact Or.inl rfl
          · dsimp only
            rcases hr : rename entry.path (td ++ [tn]) w1.fs with _ | fs2
            · exact Or.inl rfl
            · dsimp only
              have hex := rename_some_exists_dst hr
              have hnex := rename_some_not_exists_src hr
              split
              · exact Or.inr ⟨_, td ++ [tn], rfl, rfl, rfl, hex, hnex⟩
              · split
                · exact Or.inr ⟨_, td ++ [tn], rfl, rfl, rfl, hex, hnex⟩
                · exact Or.inr ⟨_, td ++ [tn], rfl, rfl, rfl, hex, hnex⟩
    · rw [if_neg hv]
      exact Or.inl rfl
  · intro m w
    unfold FileManager.pasteFile
    rcases hc : m.clipboard with _ | clip
    · exact Or.inl rfl
    · dsimp only
      by_cases hop : m.clipboardOp = "cut"
      · rw [if_pos hop]
        by_cases hsame : parentPath clip.path = m.currentPath
        · rw [if_pos hsame]
          exact Or.inl rfl
        · rw [if_neg hsame]
          by_cases hstat : pathExists w.fs clip.path = true
          · rw [if_pos hstat]
            rcases hr : rename clip.path (m.currentPath ++ [clip.name]) w.fs with _ | fs2
            · exact Or.inl rfl
            · dsimp only
              exact Or.inr ⟨_, m.currentPath ++ [clip.name], rfl, Or.inl rfl, rfl,
                rename_some_exists_dst hr⟩
          · rw [if_neg hstat]
            exact Or.inl rfl
      · rw [if_neg hop]
        by_cases hcp : m.clipboardOp = "copy"
        · rw [if_pos hcp]
          rcases hcopy : copyFileOrDir clip.path
              (if pathExists w.fs (m.currentPath ++ [clip.name]) = true
               then m.currentPath ++ [goStem clip.name ++ "_copy" ++ goExt clip.name]
               else m.currentPath ++ [clip.name]) w.fs with _ | fs2
          · exact Or.inl rfl
          · dsimp only
            exact Or.inr ⟨_, _, rfl, Or.inr rfl, rfl, copyFileOrDir_some_exists_dst hcopy⟩
        · rw [if_neg hcp]
          exact Or.inl rfl
  · intro m w nn
    unfold FileManager.renameFile
    by_cases hg : nn = "" ∨ m.entries.length = 0 ∨ (m.entries.length : Int) ≤ m.cursor
    · rw [if_pos hg]
      exact Or.inl rfl
    · rw [if_neg hg]
      rcases hn : nthInt m.entries m.cursor with _ | entry
      · exact Or.inl rfl
      · dsimp only
        by_cases hne : nn ≠ entry.name
        · rw [if_pos hne]
          rcases hr : rename entry.path (m.currentPath ++ [nn]) w.fs with _ | fs2
          · exact Or.inl rfl
          · dsimp only
            have hex := rename_some_exists_dst hr
            have hnex := rename_some_not_exists_src hr
            split
            · exact Or.inr ⟨_, m.currentPath ++ [nn], rfl, rfl, rfl, hex, hnex⟩
            · exact Or.inr ⟨_, m.currentPath ++ [nn], rfl, rfl, rfl, hex, hnex⟩
        · rw [if_neg hne]
          exact Or.inl rfl

/-! ## C2: delete semantics -/

theorem freshTrashName_not_exists {fs : Fs} {td : FPath} {name tn : String} :
    ∀ {fuel k : Nat}, freshTrashName fs td name fuel k = some tn →
      pathExists fs (td ++ [tn]) = false := by
  intro fuel
  induction fuel with
  | zero => intro k h; exact absurd h (by simp [freshTrashName])
  | succ n ih =>
    intro k h
    unfold freshTrashName at h
    dsimp only at h
    split at h
    · exact ih h
    · cases h
      simp_all

theorem stack_no_push {s : List UndoAction} {a : UndoAction} (h : s = s ++ [a]) : False := by
  have := congrArg List.length h
  simp at this

theorem rename_preserves_exists {src dst p : FPath} {fs fs2 : Fs}
    (h : rename src dst fs = some fs2) (hps : isSub src p = false)
    (hpd : isSub dst p = false) (hex : pathExists fs p = true) :
    pathExists fs2 p = true := by
  unfold rename at h
  split at h
  case isFalse => exact absurd h (by simp)
  case isTrue hc =>
    cases h
    obtain ⟨e, he, hep⟩ := pathExists_iff.1 hex
    refine pathExists_iff.2 ⟨e, ?_, hep⟩
    have hkeep : e ∈ fs.filter (fun e => !(isSub dst e.path)) :=
      List.mem_filter.2 ⟨he, by rw [hep, hpd]; rfl⟩
    have : (if isSub src e.path = true
        then { e with path := replacePrefix src dst e.path } else e) = e := by
      rw [if_neg (by rw [hep, hps]; simp)]
    exact this ▸ List.mem_map.2 ⟨e, hkeep, (by rw [this])⟩

/-- Inversion of a successful delete: if `deleteFile` pushed a ledger
entry, every intermediate step succeeded and the pieces are determined. -/
theorem deleteFile_push_inversion (m : FileManager) (w : World) (a : UndoAction)
    (h : (m.deleteFile w).1.undoStack = m.undoStack ++ [a]) :
    ∃ (entry : FileEntry) (td : FPath) (w1 : World) (tn : String) (fs2 : Fs),
      nthInt m.entries m.cursor = some entry
      ∧ (if m.trashDir = ([] : FPath) then mkdirTemp w else some (m.trashDir, w))
          = some (td, w1)
      ∧ freshTrashName w1.fs td entry.name (w1.fs.length + 1) 0 = some tn
      ∧ rename entry.path (td ++ [tn]) w1.fs = some fs2
      ∧ a = { type := "delete", oldPath := entry.path, newPath := some (td ++ [tn]),
              entry := entry, oldName := "" }
      ∧ (m.deleteFile w).2 = { w1 with fs := fs2 }
      ∧ (m.deleteFile w).1.trashDir = td
      ∧ td ≠ ([] : FPath)
      ∧ (m.deleteFile w).1.currentPath = m.currentPath := by
  unfold FileManager.deleteFile at h ⊢
  by_cases hv : 0 < m.entries.length ∧ m.cursor < (m.entries.length : Int)
  case neg =>
    rw [if_neg hv] at h
    exact absurd h stack_no_push
  case pos =>
  rw [if_pos hv] at h ⊢
  rcases hn : nthInt m.entries m.cursor with _ | entry
  · rw [hn] at h
    exact absurd h stack_no_push
  rw [hn] at h
  dsimp only at h ⊢
  rcases ht : (if m.trashDir = ([] : FPath) then mkdirTemp w else some (m.trashDir, w))
    with _ | ⟨td, w1⟩
  · rw [ht] at h
    exact absurd h stack_no_push
  rw [ht] at h
  dsimp only at h ⊢
  rcases hf : freshTrashName w1.fs td entry.name (w1.fs.length + 1) 0 with _ | tn
  · rw [hf] at h
    exact absurd h stack_no_push
  rw [hf] at h
  dsimp only at h ⊢
  rcases hr : rename entry.path (td ++ [tn]) w1.fs with _ | fs2
  · rw [hr] at h
    exact absurd h stack_no_push
  rw [hr] at h
  dsimp only at h ⊢
  have htd : td ≠ ([] : FPath) := by
    by_cases htr : m.trashDir = ([] : FPath)
    · rw [if_pos htr] at ht
      unfold mkdirTemp at ht
      dsimp only at ht
      split at ht
      · exact absurd ht (by simp)
      · cases ht
        simp
    · rw [if_neg htr] at ht
      cases ht
      exact htr
  have ha : a = { type := "delete", oldPath := entry.path, newPath := some (td ++ [tn]),
                  entry := entry, oldName := "" } := by
    split at h
    · exact (List.cons.injEq _ _ _ _ ▸ List.append_cancel_left h.symm).1
    · split at h
      · exact (List.cons.injEq _ _ _ _ ▸ List.append_cancel_left h.symm).1
      · exact (List.cons.injEq _ _ _ _ ▸ List.append_cancel_left h.symm).1
  refine ⟨entry, td, w1, tn, fs2, rfl, rfl, hf, hr, ha, rfl, ?_, htd, ?_⟩
  · split
    · rfl
    · split
      · rfl
      · rfl
  · split
    · rfl
    · split
      · rfl
      · rfl

theorem rename_some_guard {src dst : FPath} {fs fs2 : Fs}
    (h : rename src dst fs = some fs2) :
    pathExists fs src = true ∧ isSub src dst = false ∧ isSub dst src = false := by
  unfold rename at h
  split at h
  case isTrue hc => exact ⟨hc.1, hc.2.2.1, hc.2.2.2⟩
  case isFalse => exact absurd h (by simp)

set_option maxHeartbeats 800000 in
/-- C2: `deleteFile` lazily creates the trash directory on first use;
failure to create it, or to move the entry, silently abandons the operation
(no ledger push, no listing change, the state is returned untouched); the
chosen destination never pre-exists in the file system (the numeric-suffix
loop only stops on a fresh name), the entry is moved — present at the trash
path, gone from its origin — the action pushed records exactly those paths,
and the listing is reloaded; two pushes of one session (second delete run
on the first's resulting world and trash directory) record two distinct
trash paths, and both survive in the final file system — neither overwrites
the other. -/
theorem deleteFile_semantics :
    (∀ (fs : Fs) (td : FPath) (name : String) (fuel k : Nat) (tn : String),
      freshTrashName fs td name fuel k = some tn → pathExists fs (td ++ [tn]) = false)
    ∧ (∀ (m : FileManager) (w : World),
        0 < m.entries.length → 0 ≤ m.cursor → m.cursor < (m.entries.length : Int) →
        m.trashDir = ([] : FPath) → mkdirTemp w = none →
        m.deleteFile w = (m, w))
    ∧ (∀ (m : FileManager) (w : World) (td : FPath) (w1 : World) (entry : FileEntry),
        0 < m.entries.length → m.cursor < (m.entries.length : Int) →
        nthInt m.entries m.cursor = some entry →
        m.trashDir = ([] : FPath) → mkdirTemp w = some (td, w1) →
        (m.deleteFile w).1.trashDir = td)
    ∧ (∀ (m : FileManager) (w : World) (entry : FileEntry) (tn : String),
        0 < m.entries.length → m.cursor < (m.entries.length : Int) →
        nthInt m.entries m.cursor = some entry →
        m.trashDir ≠ ([] : FPath) →
        freshTrashName w.fs m.trashDir entry.name (w.fs.length + 1) 0 = some tn →
        rename entry.path (m.trashDir ++ [tn]) w.fs = none →
        m.deleteFile w = (m, w))
    ∧ (∀ (m : FileManager) (w : World) (entry : FileEntry) (tn : String) (fs2 : Fs),
        0 < m.entries.length → m.cursor < (m.entries.length : Int) →
        nthInt m.entries m.cursor = some entry →
        m.trashDir ≠ ([] : FPath) →
        freshTrashName w.fs m.trashDir entry.name (w.fs.length + 1) 0 = some tn →
        rename entry.path (m.trashDir ++ [tn]) w.fs = some fs2 →
        (m.deleteFile w).1.undoStack
            = m.undoStack ++ [{ type := "delete", oldPath := entry.path,
                                newPath := some (m.trashDir ++ [tn]), entry := entry,
                                oldName := "" }]
          ∧ (m.deleteFile w).2.fs = fs2
          ∧ pathExists fs2 (m.trashDir ++ [tn]) = true
          ∧ pathExists fs2 entry.path = false
          ∧ pathExists w.fs (m.trashDir ++ [tn]) = false
          ∧ (m.deleteFile w).1.entries = readDirectory fs2 m.currentPath)
    ∧ (∀ (m m' : FileManager) (w : World) (a1 a2 : UndoAction) (t1 t2 : FPath),
        (m.deleteFile w).1.undoStack = m.undoStack ++ [a1] →
        a1.newPath = some t1 →
        m'.trashDir = (m.deleteFile w).1.trashDir →
        (m'.deleteFile (m.deleteFile w).2).1.undoStack = m'.undoStack ++ [a2] →
        a2.newPath = some t2 →
        (∀ e : FileEntry, nthInt m'.entries m'.cursor = some e → e.path ≠ t1) →
        t1 ≠ t2
          ∧ pathExists (m'.deleteFile (m.deleteFile w).2).2.fs t1 = true
          ∧ pathExists (m'.deleteFile (m.deleteFile w).2).2.fs t2 = true) := by
  refine ⟨?_, ?_, ?_, ?_, ?_, ?_⟩
  · intro fs td name fuel k tn h
    exact freshTrashName_not_exists h
  · intro m w hlen h0 hlt htr hmk
    obtain ⟨entry, hn⟩ := nthInt_eq_some_of_lt h0 hlt
    unfold FileManager.deleteFile
    rw [if_pos ⟨hlen, hlt⟩, hn, if_pos htr, hmk]
  · intro m w td w1 entry hlen hlt hn htr hmk
    unfold FileManager.deleteFile
    rw [if_pos ⟨hlen, hlt⟩, hn, if_pos htr, hmk]
    dsimp only
    rcases hf : freshTrashName w1.fs td entry.name (w1.fs.length + 1) 0 with _ | tn
    · rfl
    · dsimp only
      rcases hre : rename entry.path (td ++ [tn]) w1.fs with _ | fs2
      · rfl
      · dsimp only
        split
        · rfl
        · split
          · rfl
          · rfl
  · intro m w entry tn hlen hlt hn htr hf hre
    unfold FileManager.deleteFile
    rw [if_pos ⟨hlen, hlt⟩, hn, if_neg htr]
    dsimp only
    rw [hf]
    dsimp only
    rw [hre]
  · intro m w entry tn fs2 hlen hlt hn htr hf hre
    have hex := rename_some_exists_dst hre
    have hnex := rename_some_not_exists_src hre
    have hfresh := freshTrashName_not_exists hf
    unfold FileManager.deleteFile
    rw [if_pos ⟨hlen, hlt⟩, hn, if_neg htr]
    dsimp only
    rw [hf]
    dsimp only
    rw [hre]
    dsimp only
    refine ⟨?_, rfl, hex, hnex, hfresh, ?_⟩
    · split
      · rfl
      · split
        · rfl
        · rfl
    · split
      · rfl
      · split
        · rfl
        · rfl
  · intro m m' w a1 a2 t1 t2 h1 hnp1 htd hsecond hnp2 hne
    obtain ⟨e1, td1, w1, tn1, fs2, hn1, ht1, hf1, hr1, ha1, hw1, htrd1, htdne1, hcur1⟩ :=
      deleteFile_push_inversion m w a1 h1
    obtain ⟨e2, td2, w2, tn2, fs3, hn2, ht2, hf2, hr2, ha2, hw2, htrd2, htdne2, hcur2⟩ :=
      deleteFile_push_inversion m' (m.deleteFile w).2 a2 hsecond
    have ht1v : t1 = td1 ++ [tn1] := by
      rw [ha1] at hnp1
      exact (Option.some.inj hnp1).symm
    have ht2v : t2 = td2 ++ [tn2] := by
      rw [ha2] at hnp2
      exact (Option.some.inj hnp2).symm
    have htd' : m'.trashDir = td1 := htd.trans htrd1
    have htdne : m'.trashDir ≠ ([] : FPath) := by rw [htd']; exact htdne1
    rw [if_neg htdne] at ht2
    have htd2 : td2 = td1 := by
      have := (Prod.mk.injEq _ _ _ _ ▸ Option.some.inj ht2)
      rw [← this.1, htd']
    have hw2fs : w2.fs = fs2 := by
      have := (Prod.mk.injEq _ _ _ _ ▸ Option.some.inj ht2)
      rw [← this.2, hw1]
    have hfresh2 : pathExists w2.fs (td2 ++ [tn2]) = false := freshTrashName_not_exists hf2
    have ht1in : pathExists w2.fs t1 = true := by
      rw [hw2fs, ht1v]
      exact rename_some_exists_dst hr1
    have hneq : t1 ≠ t2 := by
      intro hcontra
      rw [← ht2v, ← hcontra] at hfresh2
      rw [ht1in] at hfresh2
      exact absurd hfresh2 (by simp)
    obtain ⟨hsrc2, hsd2, _⟩ := rename_some_guard hr2
    have hlt1 : t1.length = td1.length + 1 := by rw [ht1v]; simp
    have hlt2 : (td2 ++ [tn2]).length = td1.length + 1 := by rw [htd2]; simp
    have hpd : isSub (td2 ++ [tn2]) t1 = false := by
      rw [isSub_eq_false_iff]
      intro hp
      have := hp.eq_of_length (by rw [hlt1, hlt2])
      rw [ht2v] at hneq
      exact hneq (by rw [this])
    have hps : isSub e2.path t1 = false := by
      rw [isSub_eq_false_iff]
      intro hp
      have htd1p : td1 <+: t1 := by rw [ht1v]; exact List.prefix_append td1 [tn1]
      rcases List.prefix_or_prefix_of_prefix hp htd1p with hc | hc
      · have : e2.path <+: td2 ++ [tn2] := by
          rw [htd2]
          exact hc.trans (List.prefix_append td1 [tn2])
        exact (isSub_eq_false_iff.1 hsd2) this
      · have hle : e2.path.length ≤ td1.length + 1 := by
          have := hp.length_le
          omega
        by_cases hcase : e2.path.length = td1.length + 1
        · have : e2.path = t1 := hp.eq_of_length (by rw [hlt1]; exact hcase)
          exact hne e2 hn2 this
        · have hlen2 : td1.length = e2.path.length := by
            have := hc.length_le
            omega
          have : td1 = e2.path := hc.eq_of_length hlen2
          have : e2.path <+: td2 ++ [tn2] := by
            rw [htd2, ← this]
            exact List.prefix_append td1 [tn2]
          exact (isSub_eq_false_iff.1 hsd2) this
    refine ⟨hneq, ?_, ?_⟩
    · rw [hw2]
      show pathExists fs3 t1 = true
      exact rename_preserves_exists hr2 hps hpd ht1in
    · rw [hw2, ht2v]
      show pathExists fs3 (td2 ++ [tn2]) = true
      exact rename_some_exists_dst hr2

/-- `/home/a.txt` as a listing entry (C2 witness). -/
def aEntC2 : FileEntry := { name := "a.txt", path := ["home", "a.txt"], isDir := false }

/-- `/home/b.txt` as a listing entry (C2 witness). -/
def bEntC2 : FileEntry := { name := "b.txt", path := ["home", "b.txt"], isDir := false }

/-- `exFs` plus an already-created trash directory. -/
def fsC2 : Fs := exFs ++
  [{ path := ["tmp"], isDir := true, content := "" },
   { path := ["tmp", "tfm_trash_9"], isDir := true, content := "" }]

/-- World for the C2 witness. -/
def wC2 : World := { fs := fsC2, nextTmp := 0, zoxideDb := [] }

/-- Browsing `/home`, cursor on `a.txt`, trash directory already created. -/
def mC2 : FileManager := { exM with cursor := 1, trashDir := ["tmp", "tfm_trash_9"] }

/-- The file system after deleting `a.txt`. -/
def fs2C2 : Fs := (mC2.deleteFile wC2).2.fs

/-- The state after the first delete. -/
def dC2 : FileManager × World := mC2.deleteFile wC2

/-- Cursor moved onto `b.txt` after the first delete. -/
def mC2b : FileManager := { dC2.1 with cursor := 1 }

/-- The ledger entry pushed by the first delete. -/
def a1C2 : UndoAction :=
  { type := "delete", oldPath := ["home", "a.txt"],
    newPath := some ["tmp", "tfm_trash_9", "a.txt"], entry := aEntC2, oldName := "" }

/-- The ledger entry pushed by the second delete. -/
def a2C2 : UndoAction :=
  { type := "delete", oldPath := ["home", "b.txt"],
    newPath := some ["tmp", "tfm_trash_9", "b.txt"], entry := bEntC2, oldName := "" }

/-- Witness for C2: a concrete successful delete (push, move, fresh
destination, reload) and a concrete two-delete session yielding distinct,
coexisting trash paths. -/
theorem deleteFile_semantics_witness :
    ((mC2.deleteFile wC2).1.undoStack
        = mC2.undoStack ++ [{ type := "delete", oldPath := aEntC2.path,
                              newPath := some (mC2.trashDir ++ ["a.txt"]), entry := aEntC2,
                              oldName := "" }]
      ∧ (mC2.deleteFile wC2).2.fs = fs2C2
      ∧ pathExists fs2C2 (mC2.trashDir ++ ["a.txt"]) = true
      ∧ pathExists fs2C2 aEntC2.path = false
      ∧ pathExists wC2.fs (mC2.trashDir ++ ["a.txt"]) = false
      ∧ (mC2.deleteFile wC2).1.entries = readDirectory fs2C2 mC2.currentPath)
    ∧ ((["tmp", "tfm_trash_9", "a.txt"] : FPath) ≠ ["tmp", "tfm_trash_9", "b.txt"]
      ∧ pathExists (mC2b.deleteFile (mC2.deleteFile wC2).2).2.fs
          ["tmp", "tfm_trash_9", "a.txt"] = true
      ∧ pathExists (mC2b.deleteFile (mC2.deleteFile wC2).2).2.fs
          ["tmp", "tfm_trash_9", "b.txt"] = true) :=
  ⟨deleteFile_semantics.2.2.2.2.1 mC2 wC2 aEntC2 "a.txt" fs2C2 (by decide) (by decide)
      (by decide) (by decide) (by decide) (by decide),
   deleteFile_semantics.2.2.2.2.2 mC2 mC2b wC2 a1C2 a2C2
      ["tmp", "tfm_trash_9", "a.txt"] ["tmp", "tfm_trash_9", "b.txt"]
      (by decide) (by decide) (by decide) (by decide) (by decide)
      (fun e he => by
        have h2 : (some bEntC2 : Option FileEntry) = some e :=
          (show nthInt mC2b.entries mC2b.cursor = some bEntC2 by decide).symm.trans he
        cases h2
        decide)⟩

/-! ## C1: delete/undo round trip -/

/-- A file system is well-formed when every proper non-empty prefix of an
entry's path also exists (parent directories are present). -/
def wellFormedFs (fs : Fs) : Prop :=
  ∀ e ∈ fs, ∀ k : Nat, k < e.path.length → 0 < k → pathExists fs (e.path.take k) = true

instance wellFormedFs_dec (fs : Fs) : Decidable (wellFormedFs fs) := by
  unfold wellFormedFs
  infer_instance

theorem wf_prefix_exists {fs : Fs} {p q : FPath} (hwf : wellFormedFs fs)
    (hq : pathExists fs q = true) (hp : p <+: q) (hne : p ≠ ([] : FPath)) (hproper : p ≠ q) :
    pathExists fs p = true := by
  obtain ⟨e, he, hep⟩ := pathExists_iff.1 hq
  subst hep
  have hlt : p.length < e.path.length := by
    rcases Nat.lt_or_ge p.length e.path.length with h | h
    · exact h
    · exact absurd (hp.eq_of_length (Nat.le_antisymm hp.length_le h)) hproper
  have htake : p = e.path.take p.length := List.prefix_iff_eq_take.1 hp
  rw [htake]
  exact hwf e he p.length hlt (List.length_pos.2 hne)

theorem pathExists_append_left {fs l : Fs} {p : FPath} (h : pathExists fs p = true) :
    pathExists (fs ++ l) p = true := by
  unfold pathExists at *
  rw [List.any_append, h]
  rfl

theorem mem_insertSorted {less : α → α → Bool} {x a : α} :
    ∀ {l : List α}, a ∈ insertSorted less x l ↔ a = x ∨ a ∈ l := by
  intro l
  induction l with
  | nil => simp [insertSorted]
  | cons y ys ih =>
    unfold insertSorted
    split
    · simp
    · rw [List.mem_cons, ih, List.mem_cons]
      tauto

theorem mem_sortByLess {less : α → α → Bool} {a : α} :
    ∀ {l : List α}, a ∈ sortByLess less l ↔ a ∈ l := by
  intro l
  induction l with
  | nil => simp [sortByLess]
  | cons y ys ih =>
    unfold sortByLess
    rw [mem_insertSorted, ih, List.mem_cons]

theorem readDirectory_mem {fs : Fs} {cur : FPath} {e : FileEntry}
    (h : e ∈ readDirectory fs cur) :
    e.path = cur ++ [e.name] ∧ pathExists fs e.path = true := by
  unfold readDirectory at h
  rw [mem_sortByLess] at h
  obtain ⟨fe, hfe, hsome⟩ := List.mem_filterMap.1 h
  rcases hcn : childName cur fe.path with _ | n
  · rw [hcn] at hsome
    exact absurd hsome (by simp)
  · rw [hcn] at hsome
    dsimp only at hsome
    split at hsome
    · exact absurd hsome (by simp)
    · cases hsome
      have hfp : fe.path = cur ++ [n] := by
        unfold childName at hcn
        rcases hgl : fe.path.getLast? with _ | n'
        · rw [hgl] at hcn
          exact absurd hcn (by simp)
        · rw [hgl] at hcn
          dsimp only at hcn
          split at hcn
          case isTrue hdl =>
            cases hcn
            have hnil : fe.path ≠ [] := by
              intro hcontra
              rw [hcontra] at hgl
              exact absurd hgl (by simp)
            rw [List.getLast?_eq_getLast fe.path hnil] at hgl
            have hn2 : n = fe.path.getLast hnil := (Option.some.inj hgl).symm
            rw [hn2, ← hdl]
            exact (List.dropLast_append_getLast hnil).symm
          case isFalse => exact absurd hcn (by simp)
      constructor
      · exact hfp ▸ rfl
      · show pathExists fs (cur ++ [n]) = true
        rw [← hfp]
        exact pathExists_iff.2 ⟨fe, hfe, rfl⟩

theorem filterMap_singleton_none {f : α → Option β} {a : α} (h : f a = none) :
    List.filterMap f [a] = [] := by
  simp [List.filterMap_cons, h]

theorem readDirectory_append_nonchild {fs : Fs} {cur : FPath} {e0 : FsEntry}
    (h : childName cur e0.path = none) :
    readDirectory (fs ++ [e0]) cur = readDirectory fs cur := by
  unfold readDirectory
  refine congrArg (sortByLess entLess) ?_
  rw [List.filterMap_append, filterMap_singleton_none ?_, List.append_nil]
  dsimp only
  rw [h]

theorem mkdirTemp_inversion {w : World} {td : FPath} {w1 : World}
    (h : mkdirTemp w = some (td, w1)) :
    td = ["tmp", tmpName w.nextTmp] ∧ pathExists w.fs td = false
    ∧ w1 = { w with fs := w.fs ++ [{ path := td, isDir := true, content := "" }],
                    nextTmp := w.nextTmp + 1 } := by
  unfold mkdirTemp at h
  dsimp only at h
  split at h
  · exact absurd h (by simp)
  · rename_i hex
    have h2 := Option.some.inj h
    have htd : (["tmp", tmpName w.nextTmp] : FPath) = td := congrArg Prod.fst h2
    have hw1 := congrArg Prod.snd h2
    dsimp only at hw1
    subst htd
    refine ⟨rfl, by simpa using hex, hw1.symm⟩

theorem undoLastAction_delete_success {m : FileManager} {w : World} {s : List UndoAction}
    {a : UndoAction} {np : FPath} {fs2 : Fs}
    (hstack : m.undoStack = s ++ [a]) (htype : a.type = "delete")
    (hnp : a.newPath = some np) (hre : rename np a.oldPath w.fs = some fs2) :
    m.undoLastAction w
      = ({ m with undoStack := s, entries := readDirectory fs2 m.currentPath },
         { w with fs := fs2 }) := by
  unfold FileManager.undoLastAction
  rw [hstack, List.getLast?_concat]
  dsimp only
  rw [List.dropLast_concat, htype, if_pos rfl, hnp]
  dsimp only
  rw [hre]

theorem rename_rename_cancel {src dst : FPath} {fs fs2 : Fs}
    (hre : rename src dst fs = some fs2)
    (hnd : ∀ e ∈ fs, isSub dst e.path = false)
    (hparent : parentPath src = ([] : FPath) ∨ pathExists fs2 (parentPath src) = true) :
    rename dst src fs2 = some fs := by
  have hdst := rename_some_exists_dst hre
  obtain ⟨hsrc, hsd, hds⟩ := rename_some_guard hre
  unfold rename at hre
  split at hre
  case isFalse => exact absurd hre (by simp)
  case isTrue hc =>
  cases hre
  have hfilt : fs.filter (fun e => !(isSub dst e.path)) = fs :=
    List.filter_eq_self.2 (fun e he => by rw [hnd e he]; rfl)
  rw [hfilt] at hdst hparent ⊢
  have hno : ∀ e2 ∈ fs.map (fun e => if isSub src e.path = true
      then { e with path := replacePrefix src dst e.path } else e),
      isSub src e2.path = false := by
    intro e2 he2
    obtain ⟨e, he, hfe⟩ := List.mem_map.1 he2
    by_cases h1 : isSub src e.path = true
    · rw [if_pos h1] at hfe
      rw [← hfe]
      show isSub src (replacePrefix src dst e.path) = false
      unfold replacePrefix
      refine isSub_eq_false_iff.2 (fun hpre => ?_)
      rcases Nat.le_total src.length dst.length with hle | hge
      · exact isSub_eq_false_iff.1 hsd
          (List.prefix_of_prefix_length_le hpre (List.prefix_append dst _) hle)
      · exact isSub_eq_false_iff.1 hds
          (List.prefix_of_prefix_length_le (List.prefix_append dst _) hpre hge)
    · rw [if_neg h1] at hfe
      rw [← hfe]
      simpa using h1
  unfold rename
  rw [if_pos ⟨hdst, hparent, hds, hsd⟩]
  refine congrArg some ?_
  rw [List.filter_eq_self.2 (fun e2 he2 => by rw [hno e2 he2]; rfl), List.map_map]
  refine Eq.trans (List.map_congr_left ?_) (List.map_id fs)
  intro e he
  dsimp only [Function.comp_apply, id_eq]
  by_cases h1 : isSub src e.path = true
  · rw [if_pos h1]
    dsimp only
    rw [if_pos (show isSub dst (replacePrefix src dst e.path) = true from
      isSub_iff.2 (List.prefix_append dst _))]
    have hp2 : replacePrefix dst src (replacePrefix src dst e.path) = e.path := by
      unfold replacePrefix
      rw [List.drop_left]
      exact List.prefix_iff_eq_append.1 (isSub_iff.1 h1)
    rw [hp2]
  · rw [if_neg h1]
    rw [if_neg (by rw [hnd e he]; simp)]

/-- C1: delete/undo round trip.  Starting from a listing in sync with a
well-formed file system, if `deleteFile` pushes an undo action (i.e. the
trash move succeeded), then `undoLastAction` pops it, restores the deleted
entry at its original path, restores the undo stack and the listing, and the
file system is back to the snapshot — exactly when a trash directory already
existed, and up to one leftover empty trash directory under `/tmp` when the
delete had to create it lazily (the listing is still indistinguishable
because `/tmp` is not the directory being browsed). -/
theorem delete_undo_roundtrip (m : FileManager) (w : World) (a : UndoAction)
    (hwf : wellFormedFs w.fs)
    (hsync : m.entries = readDirectory w.fs m.currentPath)
    (htmp : m.currentPath ≠ (["tmp"] : FPath))
    (hpush : (m.deleteFile w).1.undoStack = m.undoStack ++ [a]) :
    ((m.deleteFile w).1.undoLastAction (m.deleteFile w).2).1.undoStack = m.undoStack
    ∧ ((m.deleteFile w).1.undoLastAction (m.deleteFile w).2).1.entries = m.entries
    ∧ ((m.deleteFile w).1.undoLastAction (m.deleteFile w).2).1.currentPath = m.currentPath
    ∧ (∀ entry, nthInt m.entries m.cursor = some entry →
        pathExists ((m.deleteFile w).1.undoLastAction (m.deleteFile w).2).2.fs entry.path
          = true)
    ∧ (m.trashDir ≠ ([] : FPath) →
        ((m.deleteFile w).1.undoLastAction (m.deleteFile w).2).2.fs = w.fs)
    ∧ (m.trashDir = ([] : FPath) →
        ((m.deleteFile w).1.undoLastAction (m.deleteFile w).2).2.fs
          = w.fs ++ [{ path := ["tmp", tmpName w.nextTmp], isDir := true, content := "" }]) := by
  obtain ⟨entry, td, w1, tn, fs2, hn, ht, hf, hr, ha, hw2, htddir, htdne, hcur⟩ :=
    deleteFile_push_inversion m w a hpush
  have hmem := nthInt_mem hn
  rw [hsync] at hmem
  obtain ⟨hepath, hex⟩ := readDirectory_mem hmem
  have hW : (w1.fs = w.fs ∧ m.trashDir ≠ ([] : FPath))
      ∨ (w1.fs = w.fs ++ [{ path := td, isDir := true, content := "" }]
         ∧ m.trashDir = ([] : FPath) ∧ td = ["tmp", tmpName w.nextTmp]) := by
    by_cases htr : m.trashDir = ([] : FPath)
    · rw [if_pos htr] at ht
      obtain ⟨htd2, hfr, hw1⟩ := mkdirTemp_inversion ht
      right
      refine ⟨?_, htr, htd2⟩
      rw [hw1]
    · rw [if_neg htr] at ht
      have hpq := Option.some.inj ht
      injection hpq with h3 h4
      left
      exact ⟨by rw [← h4], htr⟩
  obtain ⟨l, hl, hlp⟩ : ∃ l : Fs, w1.fs = w.fs ++ l ∧ ∀ e ∈ l, e.path = td := by
    rcases hW with ⟨h1, _⟩ | ⟨h1, _, _⟩
    · exact ⟨[], by rw [h1, List.append_nil], by simp⟩
    · refine ⟨[{ path := td, isDir := true, content := "" }], h1, ?_⟩
      intro e he
      rw [List.mem_singleton.1 he]
  have hrd1 : readDirectory w1.fs m.currentPath = readDirectory w.fs m.currentPath := by
    rcases hW with ⟨h1, _⟩ | ⟨h1, _, htd2⟩
    · rw [h1]
    · rw [h1, htd2]
      refine readDirectory_append_nonchild ?_
      show (if (["tmp"] : FPath) = m.currentPath then some (tmpName w.nextTmp) else none)
        = none
      rw [if_neg (fun hc => htmp hc.symm)]
  have hfresh1 : pathExists w1.fs (td ++ [tn]) = false := freshTrashName_not_exists hf
  have hnd : ∀ e ∈ w1.fs, isSub (td ++ [tn]) e.path = false := by
    intro e he
    refine isSub_eq_false_iff.2 (fun hsub => ?_)
    have he2 := he
    rw [hl] at he2
    rcases List.mem_append.1 he2 with hew | hel
    · by_cases heq : (td ++ [tn] : FPath) = e.path
      · have h3 : pathExists w1.fs (td ++ [tn]) = true :=
          pathExists_iff.2 ⟨e, he, heq.symm⟩
        rw [hfresh1] at h3
        exact Bool.noConfusion h3
      · have hex2 : pathExists w.fs e.path = true := pathExists_iff.2 ⟨e, hew, rfl⟩
        have h4 := wf_prefix_exists hwf hex2 hsub (by simp) heq
        have h3 : pathExists (w.fs ++ l) (td ++ [tn]) = true := pathExists_append_left h4
        rw [← hl, hfresh1] at h3
        exact Bool.noConfusion h3
    · have hp := hlp e hel
      rw [hp] at hsub
      have h5 := hsub.length_le
      rw [List.length_append, List.length_singleton] at h5
      omega
  have hexw1 : pathExists w1.fs entry.path = true := by
    rw [hl]
    exact pathExists_append_left hex
  have hpp : parentPath entry.path = m.currentPath := by
    rw [hepath]
    unfold parentPath
    simp
  have hparent : parentPath entry.path = ([] : FPath)
      ∨ pathExists fs2 (parentPath entry.path) = true := by
    rw [hpp]
    by_cases hcn : m.currentPath = ([] : FPath)
    · exact Or.inl hcn
    · refine Or.inr (rename_preserves_exists hr ?_ ?_ ?_)
      · refine isSub_eq_false_iff.2 (fun hsub => ?_)
        have h5 := hsub.length_le
        rw [hepath, List.length_append, List.length_singleton] at h5
        have h6 : m.currentPath.length ≠ 0 := fun hc => hcn (List.length_eq_zero.1 hc)
        omega
      · refine isSub_eq_false_iff.2 (fun hsub => ?_)
        have h6 : (td ++ [tn] : FPath) <+: entry.path := by
          rw [hepath]
          exact hsub.trans (List.prefix_append _ _)
        obtain ⟨e, he, hep⟩ := pathExists_iff.1 hexw1
        have h5 := hnd e he
        rw [hep] at h5
        exact Bool.noConfusion ((isSub_iff.2 h6).symm.trans h5)
      · have h7 : pathExists w.fs m.currentPath = true := by
          refine wf_prefix_exists hwf hex ?_ hcn ?_
          · rw [hepath]
            exact List.prefix_append _ _
          · intro hc
            have h8 := congrArg List.length hc
            rw [hepath, List.length_append, List.length_singleton] at h8
            omega
        rw [hl]
        exact pathExists_append_left h7
  have hcancel : rename (td ++ [tn]) entry.path fs2 = some w1.fs :=
    rename_rename_cancel hr hnd hparent
  have hfs2 : (m.deleteFile w).2.fs = fs2 := by rw [hw2]
  have hre2 : rename (td ++ [tn]) a.oldPath (m.deleteFile w).2.fs = some w1.fs := by
    rw [ha, hfs2]
    exact hcancel
  have hund := undoLastAction_delete_success (s := m.undoStack) hpush
    (by rw [ha]) (by rw [ha]) hre2
  rw [hund]
  dsimp only
  refine ⟨rfl, ?_, hcur, ?_, ?_, ?_⟩
  · rw [hcur, hrd1, ← hsync]
  · intro entry' hentry'
    rw [hn] at hentry'
    cases Option.some.inj hentry'
    exact hexw1
  · intro h5
    rcases hW with ⟨h1, _⟩ | ⟨_, h2, _⟩
    · exact h1
    · exact absurd h2 h5
  · intro h6
    rcases hW with ⟨_, h2⟩ | ⟨h1, _, htd2⟩
    · exact absurd h6 h2
    · rw [h1, htd2]

/-- The undo action pushed by deleting the first listed entry (`sub`) of
`exM` on `exW`. -/
def aC1 : UndoAction :=
  { type := "delete", oldPath := ["home", "sub"],
    newPath := some ["tmp", "tfm_trash_0", "sub"],
    entry := { name := "sub", path := ["home", "sub"], isDir := true },
    oldName := "" }

/-- Witness for C1: deleting `sub` from `/home` and undoing restores the
undo stack and the listing on the concrete start state. -/
theorem delete_undo_roundtrip_witness :
    ((exM.deleteFile exW).1.undoLastAction (exM.deleteFile exW).2).1.undoStack = exM.undoStack
    ∧ ((exM.deleteFile exW).1.undoLastAction (exM.deleteFile exW).2).1.entries
        = exM.entries := by
  obtain ⟨h1, h2, _⟩ :=
    delete_undo_roundtrip exM exW aC1 (by decide) rfl (by decide) (by decide)
  exact ⟨h1, h2⟩
